import Mathlib

/-!
# Verification of the particle initial-condition generators in `make_balls.py`

This file gives a shallow embedding of the point-distribution generators of
`balls_impact/make_balls.py` (sphere-surface sampler, shell / cubic / HCP ball
fillers, inverse-CDF sampler, flaw CDF, field assignment) and proves or refutes
the specification claims about them.

Modelling conventions:
* Python floats are modelled as real numbers (`ℝ`); where all quantities are
  rational the embedding uses `ℚ` so that concrete instances are decidable.
* A float computation that produces NaN/Inf (division by zero) is modelled by
  `Option`: `none` stands for a non-finite result.
* `np.arange`, `np.linspace`, `np.clip`, `np.searchsorted`, `np.cumsum` are
  embedded by their documented semantics (`arange start stop step` has
  `⌈(stop-start)/step⌉` entries `start + n·step`; `searchsorted` on a sorted
  array returns the first index at which the value could be inserted).
* The HCP lattice has coordinates `x = a·(δ/2)`, `y = √3·b·(δ/2)`,
  `z = (2√6/3)·c·(δ/2)` with rational coefficients `a, b, c`; the embedding
  carries the coefficient triples `(a, b, c)` exactly (the irrational factors
  are attached by `hcpToPoint`), which makes membership and culling decidable.
-/

namespace MakeBalls

open Real

/-- A 3-D point with real coordinates. -/
abbrev Point := ℝ × ℝ × ℝ

/-- Squared Euclidean norm of a point. -/
def normSq (p : Point) : ℝ := p.1 ^ 2 + p.2.1 ^ 2 + p.2.2 ^ 2

/-- Squared Euclidean norm over `ℚ` (for the computable embeddings). -/
def normSqQ (p : ℚ × ℚ × ℚ) : ℚ := p.1 ^ 2 + p.2.1 ^ 2 + p.2.2 ^ 2

/-- Float division as a partial operation: division by zero yields a
non-finite value (NaN or ±Inf), modelled as `none`. -/
noncomputable def fdiv (a b : ℝ) : Option ℝ := if b = 0 then none else some (a / b)

/-- `np.clip(v, -1, 1)`. -/
noncomputable def clip1 (v : ℝ) : ℝ := min (max v (-1)) 1

/-- `np.arange start stop step` over the reals: the entries
`start + n * step` for `n < ⌈(stop - start)/step⌉`. -/
noncomputable def arange (start stop step : ℝ) : List ℝ :=
  (List.range ⌈(stop - start) / step⌉₊).map fun n : ℕ => start + (n : ℝ) * step

/-- `np.arange` over `ℚ` (computable). -/
def arangeQ (start stop step : ℚ) : List ℚ :=
  (List.range ⌈(stop - start) / step⌉₊).map fun n : ℕ => start + (n : ℚ) * step

/-- The golden-angle constant `φ = π(√5 - 1)` of the sphere sampler. -/
noncomputable def goldenAngle : ℝ := π * (Real.sqrt 5 - 1)

/-- The `i`-th point produced by `points_on_sphere_surface` when called with
(possibly fractional) count `N`:
`y = clip(1 - (i/(N-1))·2)`, `r = √(1-y²)`, `θ = φ·i`,
point `(cos θ · r, y, sin θ · r)`.  The division `i / (N-1)` is a float
division; for `N = 1` it is `0/0 = NaN` and the whole point is non-finite. -/
noncomputable def spherePoint (N : ℝ) (i : ℕ) : Option Point :=
  (fdiv i (N - 1)).map fun t =>
    let y := clip1 (1 - t * 2)
    let r := Real.sqrt (1 - y * y)
    let θ := goldenAngle * i
    (Real.cos θ * r, y, Real.sin θ * r)

/-- `points_on_sphere_surface(N)`: one point per entry of `np.arange(N)`
(which has `⌈N⌉` entries).  `make_ball` calls this with a float `N`. -/
noncomputable def points_on_sphere_surface (N : ℝ) : List (Option Point) :=
  (List.range ⌈N⌉₊).map (spherePoint N)

/-- `total_points_in_ball(radius, target_density)`:
`round(4π/3 · radius³ · target_density)`. -/
noncomputable def total_points_in_ball (radius target_density : ℝ) : ℤ :=
  round (4 * π / 3 * radius ^ 3 * target_density)

/-- The shell radii of `make_ball`: `np.arange(delta_r, radius + delta_r, delta_r)`. -/
noncomputable def shellsOf (radius delta_r : ℝ) : List ℝ :=
  arange delta_r (radius + delta_r) delta_r

/-- The per-shell point allocation of `make_ball`:
`shells² · (N_total / Σ shells²)`. -/
noncomputable def shellWeights (radius delta_r : ℝ) : List ℝ :=
  let shells := shellsOf radius delta_r
  let N_total := total_points_in_ball radius ((delta_r ^ 3)⁻¹)
  shells.map fun s => s ^ 2 * ((N_total : ℝ) / ((shells.map fun s => s ^ 2).sum))

/-- `make_ball(radius, delta_r)`: for each shell, the sphere-surface sample of
the shell's (fractional) allocation, scaled by the shell radius; all shells
concatenated. -/
noncomputable def make_ball (radius delta_r : ℝ) : List (Option Point) :=
  ((shellsOf radius delta_r).zip (shellWeights radius delta_r)).flatMap fun sw =>
    (points_on_sphere_surface sw.2).map
      (Option.map fun p => (p.1 * sw.1, p.2.1 * sw.1, p.2.2 * sw.1))

/-- `make_ball_cubic(radius, delta_r)`: the cubic grid
`np.mgrid[-radius:radius:delta_r]³`, retaining points with Euclidean norm
`< radius` (equivalently squared norm `< radius²`). -/
def make_ball_cubic (radius delta_r : ℚ) : List (ℚ × ℚ × ℚ) :=
  let g := arangeQ (-radius) radius delta_r
  (g.flatMap fun x => g.flatMap fun y => g.map fun z => (x, y, z)).filter
    fun p => normSqQ p < radius ^ 2

/-- The index grid `np.mgrid[0:N,0:N,0:N].reshape(3,-1)` of `make_ball_hcp`. -/
def hcpIndices (N : ℕ) : List (ℕ × ℕ × ℕ) :=
  (List.range N).flatMap fun i => (List.range N).flatMap fun j =>
    (List.range N).map fun k => (i, j, k)

/-- The HCP coefficient triple of index `(i,j,k)`:
`x = 2i + (j+k) % 2` (unit `δ/2`), `y`-coefficient `j + (k % 2)/3`
(unit `√3·δ/2`), `z`-coefficient `k` (unit `(2√6/3)·δ/2`). -/
def hcpCoeff (ijk : ℕ × ℕ × ℕ) : ℚ × ℚ × ℚ :=
  ((2 * ijk.1 + (ijk.2.1 + ijk.2.2) % 2 : ℕ),
   (ijk.2.1 : ℚ) + (ijk.2.2 % 2 : ℕ) / 3,
   (ijk.2.2 : ℚ))

/-- Squared norm of an HCP coefficient triple in units of `(δ/2)²`:
`a² + 3b² + (8/3)c²` (from `(√3)² = 3` and `(2√6/3)² = 8/3`). -/
def hcpNormSqCoeff (p : ℚ × ℚ × ℚ) : ℚ :=
  p.1 ^ 2 + 3 * p.2.1 ^ 2 + 8 / 3 * p.2.2 ^ 2

/-- `N_1d = ceil(radius·2/delta_r)`. -/
def hcpN1d (radius delta_r : ℚ) : ℕ := ⌈radius * 2 / delta_r⌉₊

/-- The raw (uncentered) HCP coefficient triples of the whole index grid. -/
def hcpRawCoeffs (radius delta_r : ℚ) : List (ℚ × ℚ × ℚ) :=
  (hcpIndices (hcpN1d radius delta_r)).map hcpCoeff

/-- `np.mean` of the first coefficient over the grid. -/
def hcpMean1 (radius delta_r : ℚ) : ℚ :=
  ((hcpRawCoeffs radius delta_r).map fun p => p.1).sum /
    ((hcpRawCoeffs radius delta_r).length : ℚ)

/-- `np.mean` of the second coefficient over the grid. -/
def hcpMean2 (radius delta_r : ℚ) : ℚ :=
  ((hcpRawCoeffs radius delta_r).map fun p => p.2.1).sum /
    ((hcpRawCoeffs radius delta_r).length : ℚ)

/-- `np.mean` of the third coefficient over the grid. -/
def hcpMean3 (radius delta_r : ℚ) : ℚ :=
  ((hcpRawCoeffs radius delta_r).map fun p => p.2.2).sum /
    ((hcpRawCoeffs radius delta_r).length : ℚ)

/-- The centered HCP coefficient triples: the grid of `hcpCoeff` values with
the per-coordinate mean subtracted (`points -= np.mean(points, axis=1)`). -/
def hcpCentered (radius delta_r : ℚ) : List (ℚ × ℚ × ℚ) :=
  (hcpRawCoeffs radius delta_r).map fun p =>
    (p.1 - hcpMean1 radius delta_r, p.2.1 - hcpMean2 radius delta_r,
     p.2.2 - hcpMean3 radius delta_r)

/-- `make_ball_hcp(radius, delta_r)` in coefficient form: centered grid,
culled to Euclidean norm `< radius`, i.e. `(δ/2)²·(a² + 3b² + (8/3)c²) < radius²`. -/
def make_ball_hcp (radius delta_r : ℚ) : List (ℚ × ℚ × ℚ) :=
  (hcpCentered radius delta_r).filter fun p =>
    (delta_r / 2) ^ 2 * hcpNormSqCoeff p < radius ^ 2

/-- The real point denoted by an HCP coefficient triple. -/
noncomputable def hcpToPoint (delta_r : ℚ) (p : ℚ × ℚ × ℚ) : Point :=
  ((p.1 : ℝ) * ((delta_r : ℝ) / 2),
   Real.sqrt 3 * (p.2.1 : ℝ) * ((delta_r : ℝ) / 2),
   2 * Real.sqrt 6 / 3 * (p.2.2 : ℝ) * ((delta_r : ℝ) / 2))

/-- `np.searchsorted(y, u, side='left')` on a sorted list: the first index
whose entry is `≥ u`, or the length if there is none. -/
def searchsortedLeft (y : List ℚ) (u : ℚ) : ℕ :=
  match y with
  | [] => 0
  | v :: rest => if u ≤ v then 0 else searchsortedLeft rest u + 1

/-- `np.searchsorted(y, u, side='right')` on a sorted list: the first index
whose entry is `> u`, or the length if there is none. -/
def searchsortedRight (y : List ℚ) (u : ℚ) : ℕ :=
  match y with
  | [] => 0
  | v :: rest => if u < v then 0 else searchsortedRight rest u + 1

/-- `np.clip(i, 0, n-1)` for an integer index. -/
def clipIdx (i : ℤ) (n : ℕ) : ℕ := (max 0 (min i ((n : ℤ) - 1))).toNat

/-- One inverse-CDF draw of `random_from_cdf`, for one uniform value `u`:
bracketing indices `i0 = clip(searchsorted_left - 1)`,
`i1 = clip(searchsorted_right)`, then the linear interpolation
`x0 + (u - y0)·(x1 - x0)/(y1 - y0)`.  A zero denominator is float division by
zero (NaN/Inf), modelled as `none`. -/
def cdfSample (x y : List ℚ) (u : ℚ) : Option ℚ :=
  let n := y.length
  let i0 := clipIdx ((searchsortedLeft y u : ℤ) - 1) n
  let i1 := clipIdx (searchsortedRight y u : ℤ) n
  let x0 := x.getD i0 0
  let x1 := x.getD i1 0
  let y0 := y.getD i0 0
  let y1 := y.getD i1 0
  if y1 - y0 = 0 then none else some (x0 + (u - y0) * (x1 - x0) / (y1 - y0))

/-- `random_from_cdf(cdf, N)` with the `N` uniform draws made explicit as the
list `us` (the code draws them with `np.random.random(N)`). -/
def random_from_cdf (cdf : List ℚ × List ℚ) (us : List ℚ) : List (Option ℚ) :=
  us.map (cdfSample cdf.1 cdf.2)

/-- `np.linspace lo hi n`: `n` evenly spaced samples from `lo` to `hi`
inclusive. -/
def linspace (lo hi : ℚ) (n : ℕ) : List ℚ :=
  (List.range n).map fun k : ℕ => lo + (k : ℚ) * ((hi - lo) / ((n : ℚ) - 1))

/-- `np.cumsum`. -/
def cumsum (l : List ℚ) : List ℚ := (l.scanl (· + ·) 0).tail

/-- `make_impact_flaw_cdf()`: domain `x = linspace(1.4e-4, 2.1e-4, 20)`,
`pdf = (x - xlow)²` normalized to sum 1, `cdf = cumsum(pdf)` normalized by its
last entry. -/
def make_impact_flaw_cdf : List ℚ × List ℚ :=
  let xlow : ℚ := 14 / 100000
  let xhigh : ℚ := 21 / 100000
  let x := linspace xlow xhigh 20
  let pdf0 := x.map fun v => (v - xlow) ^ 2
  let pdf := pdf0.map fun v => v / pdf0.sum
  let cdf0 := cumsum pdf
  let cdf := cdf0.map fun v => v / cdf0.getLastD 0
  (x, cdf)

/-- `points_to_particles`: a 24-row array with one column per point; rows 0-2
are the positions, 3-5 the uniform velocity, 6 the mass, 7 the density, 9 the
smoothing length, 22 the distention, and every other entry is the `np.zeros`
default 0.  The `flaw_cdf` argument mirrors the source's
`flaw_activation_energy_dist_cdf` parameter. -/
def points_to_particles (points : List Point) (velocity : Point)
    (mass density h distention : ℝ) (flaw_cdf : List ℚ × List ℚ) :
    Fin 24 → ℕ → ℝ := fun r c =>
  if hc : c < points.length then
    let p := points.get ⟨c, hc⟩
    if r = 0 then p.1
    else if r = 1 then p.2.1
    else if r = 2 then p.2.2
    else if r = 3 then velocity.1
    else if r = 4 then velocity.2.1
    else if r = 5 then velocity.2.2
    else if r = 6 then mass
    else if r = 7 then density
    else if r = 9 then h
    else if r = 22 then distention
    else 0
  else 0


/-! ## C8: degenerate sphere-sampler counts -/

/-- C8 (the code at the failing input): `points_on_sphere_surface` does not
reject degenerate counts.  At `N = 1` the height step divides by `N - 1 = 0`,
so the single returned point is non-finite (NaN coordinates, modelled `none`);
at `N = 0` an empty point set is silently returned.  This contradicts the
claim that `N ≤ 1` is explicitly rejected or special-cased and never yields
NaN/Inf. -/
theorem c8_sphere_degenerate_nan :
    points_on_sphere_surface ((1 : ℕ) : ℝ) = [none] ∧
    points_on_sphere_surface ((0 : ℕ) : ℝ) = [] := by
  constructor
  · simp [points_on_sphere_surface, spherePoint, fdiv, List.range_succ]
  · simp [points_on_sphere_surface]

/-! ## C9: the impact-flaw CDF -/

set_option maxHeartbeats 2000000 in
/-- Evaluation of `make_impact_flaw_cdf` to literal lists: the domain is
`linspace(1.4e-4, 2.1e-4, 20)` and the probability array is
`(Σ_{j ≤ k} j²) / 2470` for `k < 20`. -/
theorem make_impact_flaw_cdf_eval :
    make_impact_flaw_cdf =
    ([7/50000, 273/1900000, 7/47500, 287/1900000, 147/950000, 301/1900000,
      77/475000, 63/380000, 161/950000, 329/1900000, 21/118750, 343/1900000,
      7/38000, 357/1900000, 91/475000, 371/1900000, 189/950000, 77/380000,
      49/237500, 21/100000],
     [0, 1/2470, 1/494, 7/1235, 3/247, 11/494, 7/190, 14/247, 102/1235, 3/26,
      77/494, 253/1235, 5/19, 63/190, 203/494, 124/247, 748/1235, 357/494,
      111/130, 1]) := by
  simp [make_impact_flaw_cdf, linspace, cumsum, List.range_succ]
  norm_num

/-- C9 (counterexample): the claim that every entry of the probability array
of `make_impact_flaw_cdf` lies in `(0, 1]` is false: the first entry is `0`
(the pdf `(x - xlow)²` vanishes at the first sample `x = xlow`). -/
theorem c9_counterexample :
    ¬ ∀ v ∈ make_impact_flaw_cdf.2, 0 < v ∧ v ≤ 1 := by
  intro h
  have h0 : (0 : ℚ) ∈ make_impact_flaw_cdf.2 := by
    rw [make_impact_flaw_cdf_eval]
    simp
  exact absurd (h 0 h0).1 (lt_irrefl 0)

/-- C9 (amended): the CDF built by `make_impact_flaw_cdf` satisfies the
preconditions `random_from_cdf` relies on: a domain of 20 samples strictly
increasing from `1.4e-4` to `2.1e-4`, and a probability array of 20 entries,
strictly increasing, all within `[0, 1]` (the first entry is exactly `0`,
not positive), with final entry exactly `1`. -/
theorem c9_impact_flaw_cdf_shape :
    make_impact_flaw_cdf.1.length = 20 ∧
    make_impact_flaw_cdf.2.length = 20 ∧
    make_impact_flaw_cdf.1.Chain' (· < ·) ∧
    make_impact_flaw_cdf.1.headI = 14 / 100000 ∧
    make_impact_flaw_cdf.1.getLastD 0 = 21 / 100000 ∧
    make_impact_flaw_cdf.2.Chain' (· < ·) ∧
    (∀ v ∈ make_impact_flaw_cdf.2, 0 ≤ v ∧ v ≤ 1) ∧
    make_impact_flaw_cdf.2.headI = 0 ∧
    make_impact_flaw_cdf.2.getLastD 0 = 1 := by
  rw [make_impact_flaw_cdf_eval]
  norm_num [List.chain'_cons, List.mem_cons]

/-! ## C5: the flaw-activation-energy CDF argument is ignored -/

/-- C5 (the code bug): `points_to_particles` never reads its
`flaw_activation_energy_dist_cdf` argument: the produced record array is the
same for any two supplied distributions, so no per-point flaw-activation
energy is drawn from it, contrary to the claim (and to the dead inverse-CDF
machinery the module builds for exactly this purpose). -/
theorem c5_flaw_cdf_ignored (points : List Point) (velocity : Point)
    (mass density h distention : ℝ) (cdf1 cdf2 : List ℚ × List ℚ) :
    points_to_particles points velocity mass density h distention cdf1 =
    points_to_particles points velocity mass density h distention cdf2 := rfl

/-! ## C10: the produced record array -/

/-- C10: `points_to_particles` produces a 24-row array with one column per
input point; rows 0-2 reproduce the input points unchanged, rows 3-5 hold the
uniform velocity, row 6 the mass, row 7 the density, row 9 the smoothing
length, row 22 the distention, and every other row — in particular the
material-type and energy fields, for which the interface offers no
parameter — is exactly zero, as are all entries beyond the last column. -/
theorem c10_record_layout (points : List Point) (velocity : Point)
    (mass density h distention : ℝ) (cdf : List ℚ × List ℚ) :
    (∀ c (hc : c < points.length),
      points_to_particles points velocity mass density h distention cdf 0 c =
        (points.get ⟨c, hc⟩).1 ∧
      points_to_particles points velocity mass density h distention cdf 1 c =
        (points.get ⟨c, hc⟩).2.1 ∧
      points_to_particles points velocity mass density h distention cdf 2 c =
        (points.get ⟨c, hc⟩).2.2 ∧
      points_to_particles points velocity mass density h distention cdf 3 c =
        velocity.1 ∧
      points_to_particles points velocity mass density h distention cdf 4 c =
        velocity.2.1 ∧
      points_to_particles points velocity mass density h distention cdf 5 c =
        velocity.2.2 ∧
      points_to_particles points velocity mass density h distention cdf 6 c =
        mass ∧
      points_to_particles points velocity mass density h distention cdf 7 c =
        density ∧
      points_to_particles points velocity mass density h distention cdf 9 c =
        h ∧
      points_to_particles points velocity mass density h distention cdf 22 c =
        distention) ∧
    (∀ (r : Fin 24) c, r ≠ 0 → r ≠ 1 → r ≠ 2 → r ≠ 3 → r ≠ 4 → r ≠ 5 →
      r ≠ 6 → r ≠ 7 → r ≠ 9 → r ≠ 22 →
      points_to_particles points velocity mass density h distention cdf r c = 0) ∧
    (∀ (r : Fin 24) c, points.length ≤ c →
      points_to_particles points velocity mass density h distention cdf r c = 0) := by
  refine ⟨?_, ?_, ?_⟩
  · intro c hc
    simp [points_to_particles, hc]
  · intro r c h0 h1 h2 h3 h4 h5 h6 h7 h9 h22
    by_cases hc : c < points.length
    · simp [points_to_particles, hc, h0, h1, h2, h3, h4, h5, h6, h7, h9, h22]
    · simp [points_to_particles, hc]
  · intro r c hc
    simp [points_to_particles, Nat.not_lt.mpr hc]

/-- Witness for C10 at a concrete input: one point `(11, 12, 13)`, and the
energy row (8) and material rows are zero while row 0 column 0 is `11`. -/
theorem c10_record_layout_witness :
    points_to_particles [((11 : ℝ), 12, 13)] (1, 2, 3) 4 5 6 7
        make_impact_flaw_cdf 0 0 = 11 ∧
    points_to_particles [((11 : ℝ), 12, 13)] (1, 2, 3) 4 5 6 7
        make_impact_flaw_cdf 8 0 = 0 := by
  constructor
  · exact ((c10_record_layout [((11 : ℝ), 12, 13)] (1, 2, 3) 4 5 6 7
      make_impact_flaw_cdf).1 0 (by norm_num)).1
  · exact (c10_record_layout [((11 : ℝ), 12, 13)] (1, 2, 3) 4 5 6 7
      make_impact_flaw_cdf).2.1 8 0 (by decide) (by decide) (by decide)
      (by decide) (by decide) (by decide) (by decide) (by decide) (by decide)
      (by decide)

/-! ## C6: the cubic lattice filler -/

/-- Membership in `np.arange`: the values `start + n·step`, `n < ⌈(stop-start)/step⌉`. -/
theorem mem_arangeQ {start stop step v : ℚ} :
    v ∈ arangeQ start stop step ↔
    ∃ n : ℕ, n < ⌈(stop - start) / step⌉₊ ∧ v = start + n * step := by
  simp only [arangeQ, List.mem_map, List.mem_range]
  aesop

/-- Membership in the bounding cubic grid `np.mgrid[g, g, g]`. -/
theorem mem_cubic_grid {g : List ℚ} {p : ℚ × ℚ × ℚ} :
    p ∈ (g.flatMap fun x => g.flatMap fun y => g.map fun z => ((x, y, z) : ℚ × ℚ × ℚ)) ↔
    p.1 ∈ g ∧ p.2.1 ∈ g ∧ p.2.2 ∈ g := by
  constructor
  · intro hp
    simp only [List.mem_flatMap, List.mem_map] at hp
    obtain ⟨x, hx, y, hy, z, hz, rfl⟩ := hp
    exact ⟨hx, hy, hz⟩
  · rintro ⟨hx, hy, hz⟩
    simp only [List.mem_flatMap, List.mem_map]
    exact ⟨p.1, hx, p.2.1, hy, p.2.2, hz, rfl⟩

/-- C6: `make_ball_cubic` returns exactly the points of the axis-aligned grid
`-radius + n·delta_r` (for `n < ⌈2·radius/delta_r⌉` in each coordinate, i.e.
spanning `-radius` up to `radius` in steps of `delta_r`) whose squared
Euclidean norm is `< radius²`; and every pair of axis-adjacent retained
points differs by exactly `delta_r` in that coordinate and is equal in the
other two (the grid coordinates are affine in the index, so consecutive
indices differ by exactly `delta_r`). -/
theorem c6_cubic_grid (radius delta_r : ℚ) (hr : 0 < radius) (hd : 0 < delta_r) :
    (∀ p, p ∈ make_ball_cubic radius delta_r ↔
      ∃ n₁ n₂ n₃ : ℕ, n₁ < ⌈2 * radius / delta_r⌉₊ ∧ n₂ < ⌈2 * radius / delta_r⌉₊ ∧
        n₃ < ⌈2 * radius / delta_r⌉₊ ∧
        p = (-radius + n₁ * delta_r, -radius + n₂ * delta_r, -radius + n₃ * delta_r) ∧
        normSqQ p < radius ^ 2) ∧
    (∀ n₁ n₂ n₃ : ℕ,
      ((-radius + (n₁ + 1) * delta_r, -radius + n₂ * delta_r, -radius + n₃ * delta_r) : ℚ × ℚ × ℚ)
          ∈ make_ball_cubic radius delta_r →
      ((-radius + n₁ * delta_r, -radius + n₂ * delta_r, -radius + n₃ * delta_r) : ℚ × ℚ × ℚ)
          ∈ make_ball_cubic radius delta_r →
      (-radius + (n₁ + 1) * delta_r) - (-radius + n₁ * delta_r) = delta_r) ∧
    (∀ n₁ n₂ n₃ : ℕ,
      ((-radius + n₁ * delta_r, -radius + (n₂ + 1) * delta_r, -radius + n₃ * delta_r) : ℚ × ℚ × ℚ)
          ∈ make_ball_cubic radius delta_r →
      ((-radius + n₁ * delta_r, -radius + n₂ * delta_r, -radius + n₃ * delta_r) : ℚ × ℚ × ℚ)
          ∈ make_ball_cubic radius delta_r →
      (-radius + (n₂ + 1) * delta_r) - (-radius + n₂ * delta_r) = delta_r) ∧
    (∀ n₁ n₂ n₃ : ℕ,
      ((-radius + n₁ * delta_r, -radius + n₂ * delta_r, -radius + (n₃ + 1) * delta_r) : ℚ × ℚ × ℚ)
          ∈ make_ball_cubic radius delta_r →
      ((-radius + n₁ * delta_r, -radius + n₂ * delta_r, -radius + n₃ * delta_r) : ℚ × ℚ × ℚ)
          ∈ make_ball_cubic radius delta_r →
      (-radius + (n₃ + 1) * delta_r) - (-radius + n₃ * delta_r) = delta_r) := by
  have hcount : (radius - -radius) / delta_r = 2 * radius / delta_r := by ring_nf
  refine ⟨?_, ?_, ?_, ?_⟩
  · intro p
    rw [make_ball_cubic, List.mem_filter, mem_cubic_grid, mem_arangeQ, mem_arangeQ,
      mem_arangeQ, hcount]
    constructor
    · rintro ⟨⟨⟨n₁, hn₁, h₁⟩, ⟨n₂, hn₂, h₂⟩, ⟨n₃, hn₃, h₃⟩⟩, hlt⟩
      refine ⟨n₁, n₂, n₃, hn₁, hn₂, hn₃, ?_, by simpa using hlt⟩
      obtain ⟨a, b, c⟩ := p
      simp only at h₁ h₂ h₃
      rw [h₁, h₂, h₃]
    · rintro ⟨n₁, n₂, n₃, hn₁, hn₂, hn₃, rfl, hlt⟩
      exact ⟨⟨⟨n₁, hn₁, rfl⟩, ⟨n₂, hn₂, rfl⟩, ⟨n₃, hn₃, rfl⟩⟩, by simpa using hlt⟩
  · intro n₁ n₂ n₃ _h1 _h2
    ring
  · intro n₁ n₂ n₃ _h1 _h2
    ring
  · intro n₁ n₂ n₃ _h1 _h2
    ring

/-- Witness for C6 at `radius = 1`, `delta_r = 1/2`: the retained point
`(0, 0, 0)` arises from grid indices `(2, 2, 2)` of the `⌈4⌉ = 4`-wide grid. -/
theorem c6_cubic_grid_witness :
    ((0 : ℚ), (0 : ℚ), (0 : ℚ)) ∈ make_ball_cubic 1 (1/2) := by
  have h := (c6_cubic_grid 1 (1/2) (by norm_num) (by norm_num)).1 ((0 : ℚ), (0 : ℚ), (0 : ℚ))
  refine h.mpr ⟨2, 2, 2, ?_, ?_, ?_, by norm_num, by norm_num [normSqQ]⟩ <;>
    · rw [show ((2 : ℚ) * 1 / (1/2)) = 4 by norm_num]
      norm_num

/-! ## C1: the sphere-surface sampler -/

/-- `clip1` lands in `[-1, 1]`. -/
theorem clip1_mem (v : ℝ) : -1 ≤ clip1 v ∧ clip1 v ≤ 1 :=
  ⟨le_min (le_max_right v (-1)) (by norm_num), min_le_right _ 1⟩

/-- Any point of the form produced by the sphere sampler has squared norm
exactly `1`: the `clip` guarantees `1 - y² ≥ 0`, and `cos² + sin² = 1`. -/
theorem sphere_point_normSq (t θ : ℝ) :
    normSq (Real.cos θ * Real.sqrt (1 - clip1 t * clip1 t), clip1 t,
      Real.sin θ * Real.sqrt (1 - clip1 t * clip1 t)) = 1 := by
  obtain ⟨h₁, h₂⟩ := clip1_mem t
  have hy : 0 ≤ 1 - clip1 t * clip1 t := by nlinarith
  have hs : Real.sqrt (1 - clip1 t * clip1 t) ^ 2 = 1 - clip1 t * clip1 t :=
    Real.sq_sqrt hy
  have hcs : Real.cos θ ^ 2 + Real.sin θ ^ 2 = 1 := Real.cos_sq_add_sin_sq θ
  simp only [normSq]
  nlinarith [hs, hcs]

/-- C1: for every `N ≥ 2` the sphere-surface sampler deterministically
returns exactly `N` points; the `i`-th point is given by the golden-angle
rule `y = clip(1 - 2i/(N-1))`, `θ = i·π(√5-1)`, `x = cos θ·√(1-y²)`,
`z = sin θ·√(1-y²)` (all coordinates finite), and every returned point has
squared Euclidean norm exactly `1`. -/
theorem c1_sphere_surface (N : ℕ) (hN : 2 ≤ N) :
    (points_on_sphere_surface ((N : ℕ) : ℝ)).length = N ∧
    (∀ i : ℕ, i < N → (points_on_sphere_surface ((N : ℕ) : ℝ)).get? i =
      some (some
        (Real.cos ((i : ℝ) * (π * (Real.sqrt 5 - 1))) *
           Real.sqrt (1 - clip1 (1 - 2 * ((i : ℝ) / ((N : ℝ) - 1))) ^ 2),
         clip1 (1 - 2 * ((i : ℝ) / ((N : ℝ) - 1))),
         Real.sin ((i : ℝ) * (π * (Real.sqrt 5 - 1))) *
           Real.sqrt (1 - clip1 (1 - 2 * ((i : ℝ) / ((N : ℝ) - 1))) ^ 2)))) ∧
    (∀ p, some p ∈ points_on_sphere_surface ((N : ℕ) : ℝ) → normSq p = 1) := by
  have hne : ((N : ℝ)) - 1 ≠ 0 := by
    have : (2 : ℝ) ≤ (N : ℝ) := by exact_mod_cast hN
    intro h
    nlinarith
  have hceil : ⌈((N : ℕ) : ℝ)⌉₊ = N := Nat.ceil_natCast N
  refine ⟨?_, ?_, ?_⟩
  · rw [points_on_sphere_surface, hceil]
    simp
  · intro i hi
    rw [points_on_sphere_surface, hceil, List.get?_map, List.get?_range hi]
    simp only [spherePoint, fdiv, if_neg hne, Option.map_some']
    have harg : 1 - (i : ℝ) / ((N : ℝ) - 1) * 2 = 1 - 2 * ((i : ℝ) / ((N : ℝ) - 1)) := by
      ring
    have hθ : goldenAngle * (i : ℝ) = (i : ℝ) * (π * (Real.sqrt 5 - 1)) := by
      rw [goldenAngle]
      ring
    rw [harg, hθ]
    have hsq : ∀ v : ℝ, v * v = v ^ 2 := fun v => (sq v).symm
    rw [hsq]
  · intro p hp
    rw [points_on_sphere_surface, List.mem_map] at hp
    obtain ⟨i, _, hpi⟩ := hp
    rw [spherePoint, fdiv, if_neg hne, Option.map_some', Option.some_inj] at hpi
    rw [← hpi]
    exact sphere_point_normSq _ _

/-- Witness for C1 at `N = 2`: two points, each of unit squared norm. -/
theorem c1_sphere_surface_witness :
    (points_on_sphere_surface ((2 : ℕ) : ℝ)).length = 2 ∧
    (∀ p, some p ∈ points_on_sphere_surface ((2 : ℕ) : ℝ) → normSq p = 1) :=
  ⟨(c1_sphere_surface 2 (by norm_num)).1, (c1_sphere_surface 2 (by norm_num)).2.2⟩

/-! ## C2: the shell-method ball filler -/

/-- Membership in the real `np.arange`. -/
theorem mem_arange {start stop step v : ℝ} :
    v ∈ arange start stop step ↔
    ∃ n : ℕ, n < ⌈(stop - start) / step⌉₊ ∧ v = start + n * step := by
  simp only [arange, List.mem_map, List.mem_range]
  aesop

/-- The shell list has `⌈radius/delta_r⌉` entries. -/
theorem shellsOf_length (radius delta_r : ℝ) :
    (shellsOf radius delta_r).length = ⌈radius / delta_r⌉₊ := by
  rw [shellsOf, arange, List.length_map, List.length_range]
  congr 1
  ring_nf

/-- The shells are `delta_r, 2·delta_r, …, ⌈radius/delta_r⌉·delta_r`. -/
theorem mem_shellsOf {radius delta_r v : ℝ} :
    v ∈ shellsOf radius delta_r ↔
    ∃ n : ℕ, n < ⌈radius / delta_r⌉₊ ∧ v = (n + 1) * delta_r := by
  rw [shellsOf, mem_arange]
  have h : (radius + delta_r - delta_r) / delta_r = radius / delta_r := by ring_nf
  rw [h]
  constructor
  · rintro ⟨n, hn, rfl⟩
    exact ⟨n, hn, by ring⟩
  · rintro ⟨n, hn, rfl⟩
    exact ⟨n, hn, by ring⟩

/-- `points_on_sphere_surface` returns `⌈N⌉` points (the length of
`np.arange(N)`). -/
theorem length_points_on_sphere_surface (N : ℝ) :
    (points_on_sphere_surface N).length = ⌈N⌉₊ := by
  simp [points_on_sphere_surface]

/-- The weight list pairs up with the shell list. -/
theorem shellWeights_length (radius delta_r : ℝ) :
    (shellWeights radius delta_r).length = (shellsOf radius delta_r).length := by
  simp [shellWeights]

/-- The total number of points of `make_ball` is the sum of the ceilings of
the fractional shell allocations (each shell contributes `⌈w⌉` points since
`np.arange(w)` has `⌈w⌉` entries). -/
theorem make_ball_length (radius delta_r : ℝ) :
    (make_ball radius delta_r).length =
    ((shellWeights radius delta_r).map fun w => ⌈w⌉₊).sum := by
  rw [make_ball, List.length_flatMap]
  simp only [Function.comp_def]
  have h1 : (((shellsOf radius delta_r).zip (shellWeights radius delta_r)).map
      fun sw => ((points_on_sphere_surface sw.2).map
        (Option.map fun p => (p.1 * sw.1, p.2.1 * sw.1, p.2.2 * sw.1))).length) =
      (((shellsOf radius delta_r).zip (shellWeights radius delta_r)).map
        fun sw => ⌈sw.2⌉₊) := by
    apply List.map_congr_left
    intro sw _
    rw [List.length_map, length_points_on_sphere_surface]
  rw [h1]
  have h2 : (((shellsOf radius delta_r).zip (shellWeights radius delta_r)).map
      fun sw => ⌈sw.2⌉₊) =
      ((((shellsOf radius delta_r).zip (shellWeights radius delta_r)).map
        Prod.snd).map fun w => ⌈w⌉₊) := by
    rw [List.map_map]
    rfl
  rw [h2, List.map_snd_zip]
  exact le_of_eq (shellWeights_length radius delta_r)

/-- In real arithmetic the fractional shell allocations sum exactly to the
rounded total `N_total`. -/
theorem shellWeights_sum (radius delta_r : ℝ) (hr : 0 < radius) (hd : 0 < delta_r) :
    (shellWeights radius delta_r).sum =
    (total_points_in_ball radius ((delta_r ^ 3)⁻¹) : ℝ) := by
  rw [shellWeights, List.sum_map_mul_right]
  have hS : 0 < ((shellsOf radius delta_r).map fun s => s ^ 2).sum := by
    apply List.sum_pos
    · intro x hx
      rw [List.mem_map] at hx
      obtain ⟨s, hs, rfl⟩ := hx
      rw [mem_shellsOf] at hs
      obtain ⟨n, _, rfl⟩ := hs
      have : (0 : ℝ) < (n + 1) * delta_r := by positivity
      positivity
    · intro hnil
      have := congrArg List.length hnil
      rw [List.length_map, shellsOf_length] at this
      simp only [List.length_nil] at this
      have hpos : 0 < ⌈radius / delta_r⌉₊ := Nat.ceil_pos.mpr (by positivity)
      omega
  field_simp

/-- The rounded total is nonnegative for positive parameters. -/
theorem total_points_nonneg (radius delta_r : ℝ) (hr : 0 < radius) (hd : 0 < delta_r) :
    0 ≤ total_points_in_ball radius ((delta_r ^ 3)⁻¹) := by
  rw [total_points_in_ball, round_eq]
  have harg : (0 : ℝ) ≤ 4 * π / 3 * radius ^ 3 * (delta_r ^ 3)⁻¹ := by
    have := Real.pi_pos
    positivity
  have : (0 : ℤ) = ⌊(1 : ℝ) / 2⌋ := by norm_num
  rw [this]
  apply Int.floor_le_floor
  linarith

/-- Every fractional shell allocation is nonnegative. -/
theorem shellWeights_nonneg (radius delta_r : ℝ) (hr : 0 < radius) (hd : 0 < delta_r) :
    ∀ w ∈ shellWeights radius delta_r, 0 ≤ w := by
  intro w hw
  rw [shellWeights, List.mem_map] at hw
  obtain ⟨s, _, rfl⟩ := hw
  have hN : (0 : ℝ) ≤ (total_points_in_ball radius ((delta_r ^ 3)⁻¹) : ℝ) := by
    exact_mod_cast total_points_nonneg radius delta_r hr hd
  have hS : 0 < ((shellsOf radius delta_r).map fun s => s ^ 2).sum := by
    apply List.sum_pos
    · intro x hx
      rw [List.mem_map] at hx
      obtain ⟨u, hu, rfl⟩ := hx
      rw [mem_shellsOf] at hu
      obtain ⟨n, _, rfl⟩ := hu
      have : (0 : ℝ) < (n + 1) * delta_r := by positivity
      positivity
    · intro hnil
      have := congrArg List.length hnil
      rw [List.length_map, shellsOf_length] at this
      simp only [List.length_nil] at this
      have hpos : 0 < ⌈radius / delta_r⌉₊ := Nat.ceil_pos.mpr (by positivity)
      omega
  positivity

/-- Summing `w + 1` over a list adds the length to the sum. -/
theorem sum_map_add_one (l : List ℝ) :
    (l.map fun w => w + 1).sum = l.sum + l.length := by
  induction l with
  | nil => simp
  | cons a l ih =>
    simp only [List.map_cons, List.sum_cons, ih, List.length_cons]
    push_cast
    ring

/-- The shell list at `radius = 1/10`, `delta_r = 1/40` is the four shells
`1/40, 2/40, 3/40, 4/40`. -/
theorem shellsOf_eval_concrete :
    shellsOf (1/10) (1/40) = [1/40, 1/20, 3/40, 1/10] := by
  have h4 : (((1:ℝ)/10 + 1/40) - 1/40) / (1/40) = 4 := by norm_num
  rw [shellsOf, arange, h4, Nat.ceil_ofNat]
  simp [List.range_succ]
  norm_num

/-- `N_total` at `radius = 1/10`, `delta_r = 1/40` is
`round(4π/3 · (1/10)³ · 40³) = round(256π/3) = 268`. -/
theorem total_points_eval_concrete :
    total_points_in_ball (1/10) ((((1:ℝ)/40) ^ 3)⁻¹) = 268 := by
  rw [total_points_in_ball, round_eq]
  have harg : 4 * π / 3 * ((1:ℝ)/10) ^ 3 * ((((1:ℝ)/40)) ^ 3)⁻¹ + 1/2 =
      256 * π / 3 + 1/2 := by
    ring
  rw [harg]
  have hlo := Real.pi_gt_3141592
  have hhi := Real.pi_lt_3141593
  rw [Int.floor_eq_iff]
  constructor
  · push_cast
    nlinarith
  · push_cast
    nlinarith

/-- The fractional shell allocations at `radius = 1/10`, `delta_r = 1/40` are
exactly proportional to the squared shell radii, with constant
`N_total / Σ s² = 268 / (3/160) = 42880/3`. -/
theorem shellWeights_eval_concrete :
    shellWeights (1/10) (1/40) =
    (shellsOf (1/10) (1/40)).map fun s => s ^ 2 * (42880/3) := by
  simp only [shellWeights]
  rw [total_points_eval_concrete, shellsOf_eval_concrete]
  simp only [List.map_cons, List.map_nil, List.sum_cons, List.sum_nil]
  norm_num

/-- `make_ball` at `radius = 1/10`, `delta_r = 1/40` returns
`⌈134/15⌉ + ⌈536/15⌉ + ⌈402/5⌉ + ⌈2144/15⌉ = 9 + 36 + 81 + 143 = 269` points. -/
theorem make_ball_length_concrete : (make_ball (1/10) (1/40)).length = 269 := by
  rw [make_ball_length, shellWeights_eval_concrete, shellsOf_eval_concrete]
  have e1 : ((1:ℝ)/40) ^ 2 * (42880/3) = 134/15 := by norm_num
  have e2 : ((1:ℝ)/20) ^ 2 * (42880/3) = 536/15 := by norm_num
  have e3 : ((3:ℝ)/40) ^ 2 * (42880/3) = 402/5 := by norm_num
  have e4 : ((1:ℝ)/10) ^ 2 * (42880/3) = 2144/15 := by norm_num
  have c1 : ⌈(134/15 : ℝ)⌉₊ = 9 := by
    rw [Nat.ceil_eq_iff (by norm_num)]
    norm_num
  have c2 : ⌈(536/15 : ℝ)⌉₊ = 36 := by
    rw [Nat.ceil_eq_iff (by norm_num)]
    norm_num
  have c3 : ⌈(402/5 : ℝ)⌉₊ = 81 := by
    rw [Nat.ceil_eq_iff (by norm_num)]
    norm_num
  have c4 : ⌈(2144/15 : ℝ)⌉₊ = 143 := by
    rw [Nat.ceil_eq_iff (by norm_num)]
    norm_num
  simp only [List.map_cons, List.map_nil, e1, e2, e3, e4, c1, c2, c3, c4,
    List.sum_cons, List.sum_nil]
  norm_num

/-- C2: for all positive `radius`, `delta_r`, the number of points returned
by `make_ball` is within shell-rounding tolerance of
`N_total = round(4/3·π·radius³·delta_r⁻³)` — between `N_total` and
`N_total + (number of shells)`, since each shell's fractional allocation is
rounded up by `np.arange`.  In particular for `radius = 1/10`,
`delta_r = 1/40` there are exactly 4 shells, `N_total = 268`, the per-shell
allocations are exactly proportional to the squared shell radii, and 269
points are produced (within the tolerance `268 ≤ 269 ≤ 268 + 4`). -/
theorem c2_shell_ball_count :
    (∀ radius delta_r : ℝ, 0 < radius → 0 < delta_r →
      ((total_points_in_ball radius ((delta_r ^ 3)⁻¹) : ℝ) ≤
          (make_ball radius delta_r).length ∧
        ((make_ball radius delta_r).length : ℝ) ≤
          (total_points_in_ball radius ((delta_r ^ 3)⁻¹) : ℝ) +
            (shellsOf radius delta_r).length)) ∧
    (shellsOf (1/10) (1/40)).length = 4 ∧
    total_points_in_ball (1/10) ((((1:ℝ)/40) ^ 3)⁻¹) = 268 ∧
    shellWeights (1/10) (1/40) = (shellsOf (1/10) (1/40)).map
      (fun s => s ^ 2 * (42880/3)) ∧
    (make_ball (1/10) (1/40)).length = 269 := by
  refine ⟨?_, ?_, total_points_eval_concrete, shellWeights_eval_concrete,
    make_ball_length_concrete⟩
  · intro radius delta_r hr hd
    have hnn := shellWeights_nonneg radius delta_r hr hd
    have hsum := shellWeights_sum radius delta_r hr hd
    have hlen := make_ball_length radius delta_r
    have hcast : ((((shellWeights radius delta_r).map fun w => ⌈w⌉₊).sum : ℕ) : ℝ) =
        ((shellWeights radius delta_r).map fun w => ((⌈w⌉₊ : ℕ) : ℝ)).sum := by
      rw [Nat.cast_list_sum, List.map_map]
      rfl
    constructor
    · rw [hlen, hcast, ← hsum]
      have hid : (shellWeights radius delta_r).sum =
          ((shellWeights radius delta_r).map id).sum := by rw [List.map_id]
      rw [hid]
      exact List.sum_le_sum fun w _ => Nat.le_ceil w
    · rw [hlen, hcast, ← hsum, ← shellWeights_length]
      calc ((shellWeights radius delta_r).map fun w => ((⌈w⌉₊ : ℕ) : ℝ)).sum
          ≤ ((shellWeights radius delta_r).map fun w => w + 1).sum :=
            List.sum_le_sum fun w hw => le_of_lt (Nat.ceil_lt_add_one (hnn w hw))
        _ = (shellWeights radius delta_r).sum + (shellWeights radius delta_r).length :=
            sum_map_add_one _
  · rw [shellsOf_eval_concrete]
    rfl

/-- Witness for C2 at `radius = 1/10`, `delta_r = 1/40`: the general bound
instantiated at the concrete scenario. -/
theorem c2_shell_ball_count_witness :
    (total_points_in_ball (1/10) (((((1:ℝ))/40) ^ 3)⁻¹) : ℝ) ≤
        (make_ball (1/10) (1/40)).length ∧
      ((make_ball (1/10) (1/40)).length : ℝ) ≤
        (total_points_in_ball (1/10) (((((1:ℝ))/40) ^ 3)⁻¹) : ℝ) +
          (shellsOf (1/10) (1/40)).length :=
  c2_shell_ball_count.1 (1/10) (1/40) (by norm_num) (by norm_num)

/-! ## C3: boundary conventions of the three ball fillers -/

/-- Squared norm of a scaled point. -/
theorem normSq_scale (q : Point) (s : ℝ) :
    normSq (q.1 * s, q.2.1 * s, q.2.2 * s) = normSq q * s ^ 2 := by
  simp only [normSq]
  ring

/-- The squared Euclidean norm of the real point denoted by an HCP
coefficient triple is `(δ/2)²·(a² + 3b² + (8/3)c²)`. -/
theorem hcpToPoint_normSq (delta_r : ℚ) (p : ℚ × ℚ × ℚ) :
    normSq (hcpToPoint delta_r p) =
    ((delta_r : ℝ) / 2) ^ 2 * ((hcpNormSqCoeff p : ℚ) : ℝ) := by
  have h3 : Real.sqrt 3 ^ 2 = 3 := Real.sq_sqrt (by norm_num)
  have h6 : Real.sqrt 6 ^ 2 = 6 := Real.sq_sqrt (by norm_num)
  simp only [normSq, hcpToPoint, hcpNormSqCoeff]
  push_cast
  linear_combination ((p.2.1 : ℝ) * ((delta_r : ℝ) / 2)) ^ 2 * h3 +
    (4 / 9) * (p.2.2 : ℝ) ^ 2 * ((delta_r : ℝ) / 2) ^ 2 * h6

/-- Every point of `make_ball` is an (always well-defined, norm-1) sphere
point scaled by its shell radius, so its squared norm is the squared shell
radius. -/
theorem make_ball_normSq (radius delta_r : ℝ) (p : Point)
    (hp : some p ∈ make_ball radius delta_r) :
    ∃ s ∈ shellsOf radius delta_r, normSq p = s ^ 2 := by
  rw [make_ball, List.mem_flatMap] at hp
  obtain ⟨sw, hsw, hmem⟩ := hp
  rw [List.mem_map] at hmem
  obtain ⟨qopt, hq, hscale⟩ := hmem
  rw [points_on_sphere_surface, List.mem_map] at hq
  obtain ⟨i, _, hqi⟩ := hq
  refine ⟨sw.1, (List.of_mem_zip hsw).1, ?_⟩
  rw [spherePoint] at hqi
  rcases hd : fdiv (i : ℝ) (sw.2 - 1) with _ | t
  · rw [hd] at hqi
    rw [← hqi] at hscale
    simp at hscale
  · rw [hd, Option.map_some'] at hqi
    rw [← hqi, Option.map_some', Option.some_inj] at hscale
    rw [← hscale, normSq_scale, sphere_point_normSq, one_mul]

/-- Every shell radius is at most `⌈radius/delta_r⌉·delta_r`. -/
theorem shellsOf_le (radius delta_r : ℝ) (hd : 0 < delta_r) :
    ∀ s ∈ shellsOf radius delta_r, s ≤ (⌈radius / delta_r⌉₊ : ℝ) * delta_r := by
  intro s hs
  rw [mem_shellsOf] at hs
  obtain ⟨n, hn, rfl⟩ := hs
  have hcast : ((n : ℝ) + 1) ≤ (⌈radius / delta_r⌉₊ : ℝ) := by
    exact_mod_cast hn
  nlinarith

/-- C3 (amended): the cubic and HCP fillers both retain exactly the points of
squared Euclidean norm strictly below `radius²` (one consistent strict
convention between those two).  The shell filler `make_ball` instead places
every point at one of the exact shell radii `k·delta_r`, `k = 1..⌈radius/delta_r⌉`,
which reach `⌈radius/delta_r⌉·delta_r` — a value `≥ radius` that equals
`radius` only when `delta_r` divides `radius` — so its points can lie on or
outside the requested boundary and no single boundary convention covers all
three fillers. -/
theorem c3_boundary_convention :
    (∀ radius delta_r : ℚ, 0 < radius →
      ∀ p ∈ make_ball_cubic radius delta_r, normSqQ p < radius ^ 2) ∧
    (∀ radius delta_r : ℚ, 0 < radius →
      ∀ p ∈ make_ball_hcp radius delta_r,
        normSq (hcpToPoint delta_r p) < ((radius : ℚ) : ℝ) ^ 2) ∧
    (∀ radius delta_r : ℝ, ∀ p : Point, some p ∈ make_ball radius delta_r →
      ∃ s ∈ shellsOf radius delta_r, normSq p = s ^ 2) ∧
    (∀ radius delta_r : ℝ, 0 < delta_r → ∀ s ∈ shellsOf radius delta_r,
      s ≤ (⌈radius / delta_r⌉₊ : ℝ) * delta_r) := by
  refine ⟨?_, ?_, ?_, shellsOf_le⟩
  · intro radius delta_r _ p hp
    rw [make_ball_cubic, List.mem_filter] at hp
    exact_mod_cast of_decide_eq_true hp.2
  · intro radius delta_r _ p hp
    rw [make_ball_hcp, List.mem_filter] at hp
    have h : (delta_r / 2) ^ 2 * hcpNormSqCoeff p < radius ^ 2 :=
      of_decide_eq_true hp.2
    rw [hcpToPoint_normSq]
    have := (Rat.cast_lt (K := ℝ)).mpr h
    push_cast at this ⊢
    convert this using 2
  · intro radius delta_r p hp
    exact make_ball_normSq radius delta_r p hp

/-- The shells of `make_ball 1 (3/4)` are `3/4` and `3/2` — the outer shell
radius `3/2` exceeds the requested radius `1`. -/
theorem shellsOf_eval_ce : shellsOf 1 (3/4) = [3/4, 3/2] := by
  have h : (((1:ℝ) + 3/4) - 3/4) / (3/4) = 4/3 := by norm_num
  have hc : ⌈((4:ℝ)/3)⌉₊ = 2 := by
    rw [Nat.ceil_eq_iff (by norm_num)]
    norm_num
  rw [shellsOf, arange, h, hc]
  simp [List.range_succ]
  norm_num

/-- `N_total` at `radius = 1`, `delta_r = 3/4` is `round(256π/81) = 10`. -/
theorem total_points_eval_ce :
    total_points_in_ball 1 ((((3:ℝ)/4) ^ 3)⁻¹) = 10 := by
  rw [total_points_in_ball, round_eq]
  have harg : 4 * π / 3 * (1:ℝ) ^ 3 * ((((3:ℝ)/4)) ^ 3)⁻¹ + 1/2 =
      256 * π / 81 + 1/2 := by
    ring
  rw [harg]
  have hlo := Real.pi_gt_3141592
  have hhi := Real.pi_lt_3141593
  rw [Int.floor_eq_iff]
  constructor
  · push_cast
    nlinarith
  · push_cast
    nlinarith

/-- The fractional shell allocations of `make_ball 1 (3/4)` are `[2, 8]`. -/
theorem shellWeights_eval_ce : shellWeights 1 (3/4) = [2, 8] := by
  simp only [shellWeights]
  rw [total_points_eval_ce, shellsOf_eval_ce]
  simp only [List.map_cons, List.map_nil, List.sum_cons, List.sum_nil]
  norm_num

/-- The first point of the outer shell of `make_ball 1 (3/4)`. -/
theorem spherePoint_eval_ce : spherePoint 8 0 = some (0, 1, 0) := by
  rw [spherePoint, fdiv, if_neg (by norm_num : (8:ℝ) - 1 ≠ 0), Option.map_some']
  have ht : ((0:ℕ):ℝ) / ((8:ℝ) - 1) = 0 := by norm_num
  have hy : clip1 (1 - ((0:ℕ):ℝ) / ((8:ℝ) - 1) * 2) = 1 := by
    rw [ht, clip1]
    norm_num
  simp only [hy, Option.some_inj]
  have hr : Real.sqrt (1 - 1 * 1) = 0 := by
    norm_num
  rw [hr]
  have hθ : goldenAngle * ((0:ℕ):ℝ) = 0 := by
    norm_num
  rw [hθ, Real.cos_zero, Real.sin_zero]
  norm_num

/-- C3 (counterexample): the claim fails as stated — `make_ball 1 (3/4)`
contains the point `(0, 3/2, 0)` of norm `3/2 > 1`, so the shell filler
respects neither the strict nor the non-strict boundary convention. -/
theorem c3_counterexample :
    some ((0 : ℝ), 3/2, 0) ∈ make_ball 1 (3/4) ∧
    ¬ normSq ((0 : ℝ), 3/2, 0) ≤ 1 ^ 2 := by
  constructor
  · rw [make_ball, shellsOf_eval_ce, shellWeights_eval_ce]
    rw [List.mem_flatMap]
    refine ⟨(3/2, 8), by simp, ?_⟩
    rw [List.mem_map]
    refine ⟨some (0, 1, 0), ?_, by norm_num⟩
    rw [points_on_sphere_surface, List.mem_map]
    refine ⟨0, ?_, spherePoint_eval_ce⟩
    rw [Nat.ceil_ofNat]
    simp
  · simp only [normSq]
    norm_num

/-- Witness for C3's amended theorem: the outer shell radius `3/2` of
`make_ball 1 (3/4)` is within the proved bound `⌈radius/delta_r⌉·delta_r`. -/
theorem c3_boundary_convention_witness :
    (3/2 : ℝ) ≤ (⌈(1:ℝ) / (3/4)⌉₊ : ℝ) * (3/4) :=
  c3_boundary_convention.2.2.2 1 (3/4) (by norm_num) (3/2)
    (by rw [shellsOf_eval_ce]; simp)

/-! ## C4: the inverse-CDF sampler -/

/-- `searchsorted_left` never exceeds the array length. -/
theorem searchsortedLeft_le_length (y : List ℚ) (u : ℚ) :
    searchsortedLeft y u ≤ y.length := by
  induction y with
  | nil => simp [searchsortedLeft]
  | cons v rest ih =>
    rw [searchsortedLeft]
    split
    · simp
    · simpa using ih

/-- `searchsorted_right` never exceeds the array length. -/
theorem searchsortedRight_le_length (y : List ℚ) (u : ℚ) :
    searchsortedRight y u ≤ y.length := by
  induction y with
  | nil => simp [searchsortedRight]
  | cons v rest ih =>
    rw [searchsortedRight]
    split
    · simp
    · simpa using ih

/-- Entries before the left insertion point are below `u`. -/
theorem getD_lt_of_lt_searchsortedLeft (y : List ℚ) (u : ℚ) :
    ∀ m, m < searchsortedLeft y u → y.getD m 0 < u := by
  induction y with
  | nil => simp [searchsortedLeft]
  | cons v rest ih =>
    intro m hm
    rw [searchsortedLeft] at hm
    by_cases h : u ≤ v
    · rw [if_pos h] at hm
      omega
    · rw [if_neg h] at hm
      cases m with
      | zero => simpa using lt_of_not_le h
      | succ m' =>
        rw [List.getD_cons_succ]
        exact ih m' (by omega)

/-- The entry at the left insertion point (if any) is at least `u`. -/
theorem le_getD_searchsortedLeft (y : List ℚ) (u : ℚ)
    (h : searchsortedLeft y u < y.length) :
    u ≤ y.getD (searchsortedLeft y u) 0 := by
  induction y with
  | nil => simp [searchsortedLeft] at h
  | cons v rest ih =>
    rw [searchsortedLeft] at h ⊢
    by_cases hc : u ≤ v
    · rw [if_pos hc]
      simpa using hc
    · rw [if_neg hc] at h ⊢
      rw [List.getD_cons_succ]
      exact ih (by simpa using h)

/-- Entries before the right insertion point are at most `u`. -/
theorem getD_le_of_lt_searchsortedRight (y : List ℚ) (u : ℚ) :
    ∀ m, m < searchsortedRight y u → y.getD m 0 ≤ u := by
  induction y with
  | nil => simp [searchsortedRight]
  | cons v rest ih =>
    intro m hm
    rw [searchsortedRight] at hm
    by_cases h : u < v
    · rw [if_pos h] at hm
      omega
    · rw [if_neg h] at hm
      cases m with
      | zero => simpa using le_of_not_lt h
      | succ m' =>
        rw [List.getD_cons_succ]
        exact ih m' (by omega)

/-- The entry at the right insertion point (if any) exceeds `u`. -/
theorem lt_getD_searchsortedRight (y : List ℚ) (u : ℚ)
    (h : searchsortedRight y u < y.length) :
    u < y.getD (searchsortedRight y u) 0 := by
  induction y with
  | nil => simp [searchsortedRight] at h
  | cons v rest ih =>
    rw [searchsortedRight] at h ⊢
    by_cases hc : u < v
    · rw [if_pos hc]
      simpa using hc
    · rw [if_neg hc] at h ⊢
      rw [List.getD_cons_succ]
      exact ih (by simpa using h)

/-- The left insertion point is at most the right insertion point. -/
theorem searchsortedLeft_le_searchsortedRight (y : List ℚ) (u : ℚ) :
    searchsortedLeft y u ≤ searchsortedRight y u := by
  induction y with
  | nil => simp [searchsortedLeft, searchsortedRight]
  | cons v rest ih =>
    rw [searchsortedLeft, searchsortedRight]
    by_cases h2 : u < v
    · rw [if_pos h2, if_pos (le_of_lt h2)]
    · rw [if_neg h2]
      by_cases h1 : u ≤ v
      · rw [if_pos h1]
        omega
      · rw [if_neg h1]
        omega

/-- Strictly sorted lists have strictly increasing `getD` entries. -/
theorem getD_strictMono {l : List ℚ} (h : l.Sorted (· < ·)) {i j : ℕ}
    (hij : i < j) (hj : j < l.length) : l.getD i 0 < l.getD j 0 := by
  have hi : i < l.length := lt_trans hij hj
  rw [List.getD_eq_getElem?_getD, List.getD_eq_getElem?_getD,
    List.getElem?_eq_getElem hi, List.getElem?_eq_getElem hj]
  exact h.rel_get_of_lt hij

/-- Nondecreasingly sorted lists have nondecreasing `getD` entries. -/
theorem getD_mono {l : List ℚ} (h : l.Sorted (· ≤ ·)) {i j : ℕ}
    (hij : i ≤ j) (hj : j < l.length) : l.getD i 0 ≤ l.getD j 0 := by
  have hi : i < l.length := lt_of_le_of_lt hij hj
  rw [List.getD_eq_getElem?_getD, List.getD_eq_getElem?_getD,
    List.getElem?_eq_getElem hi, List.getElem?_eq_getElem hj]
  exact h.rel_get_of_le (by exact_mod_cast hij)

/-- Soundness of one inverse-CDF draw: on a strictly increasing probability
array of at least two entries, for any `u` between the first and last entry,
the bracketing samples are never identical (no division by zero) and the
interpolated value lies between the first and last domain samples. -/
theorem cdfSample_sound (x y : List ℚ) (hlen : x.length = y.length)
    (hn : 2 ≤ y.length) (hy : y.Sorted (· < ·)) (hx : x.Sorted (· ≤ ·))
    (u : ℚ) (hu0 : y.getD 0 0 ≤ u) (hu1 : u ≤ y.getD (y.length - 1) 0) :
    ∃ v, cdfSample x y u = some v ∧
      x.getD 0 0 ≤ v ∧ v ≤ x.getD (x.length - 1) 0 := by
  set n := y.length with hn_def
  set L := searchsortedLeft y u with hL_def
  set R := searchsortedRight y u with hR_def
  have hLlen : L ≤ n := searchsortedLeft_le_length y u
  have hRlen : R ≤ n := searchsortedRight_le_length y u
  have hLR : L ≤ R := searchsortedLeft_le_searchsortedRight y u
  -- L ≤ n - 1, else y[n-1] < u ≤ y[n-1]
  have hLn : L ≤ n - 1 := by
    by_contra hcon
    have hL_eq : L = n := by omega
    have : y.getD (n - 1) 0 < u :=
      getD_lt_of_lt_searchsortedLeft y u (n - 1) (by omega)
    exact absurd hu1 (not_le.mpr this)
  set i0 := clipIdx ((L : ℤ) - 1) n with hi0_def
  set i1 := clipIdx (R : ℤ) n with hi1_def
  have hi0_eval : i0 = if 1 ≤ L then L - 1 else 0 := by
    rw [hi0_def, clipIdx]
    split <;> omega
  have hi1_eval : i1 = min R (n - 1) := by
    rw [hi1_def, clipIdx]
    omega
  -- i0 and i1 are valid indices, with i0 ≤ i1
  have hi0_lt : i0 < n := by
    rw [hi0_eval]
    split <;> omega
  have hi1_lt : i1 < n := by
    rw [hi1_eval]
    omega
  have hi0_le_i1 : i0 ≤ i1 := by
    rw [hi0_eval, hi1_eval]
    split <;> omega
  -- y[i0] ≤ u
  have hy0_le : y.getD i0 0 ≤ u := by
    rcases Nat.lt_or_ge L 1 with hL0 | hL1
    · have hi00 : i0 = 0 := by
        rw [hi0_eval]
        split <;> omega
      rw [hi00]
      exact hu0
    · have hi0L : i0 = L - 1 := by
        rw [hi0_eval, if_pos hL1]
      rw [hi0L]
      exact le_of_lt (getD_lt_of_lt_searchsortedLeft y u (L - 1) (by omega))
  -- u ≤ y[i1] and y[i0] < y[i1]
  have hkey : u ≤ y.getD i1 0 ∧ y.getD i0 0 < y.getD i1 0 := by
    rcases Nat.lt_or_ge R n with hRn | hRn
    · -- i1 = R, u < y[R]
      have hi1R : i1 = R := by
        rw [hi1_eval]
        omega
      have huR : u < y.getD i1 0 := by
        rw [hi1R]
        exact lt_getD_searchsortedRight y u hRn
      exact ⟨le_of_lt huR, lt_of_le_of_lt hy0_le huR⟩
    · -- R = n: every entry ≤ u, so u = y[n-1]; i1 = n-1
      have hR_eq : R = n := by omega
      have hi1n : i1 = n - 1 := by
        rw [hi1_eval]
        omega
      have hun : u = y.getD (n - 1) 0 := by
        have : y.getD (n - 1) 0 ≤ u :=
          getD_le_of_lt_searchsortedRight y u (n - 1) (by omega)
        exact le_antisymm hu1 this
      constructor
      · rw [hi1n, ← hun]
      · rw [hi1n]
        rcases Nat.lt_or_ge L 1 with hL0 | hL1
        · have hi00 : i0 = 0 := by
            rw [hi0_eval]
            split <;> omega
          rw [hi00]
          exact getD_strictMono hy (by omega) (by omega)
        · have hi0L : i0 = L - 1 := by
            rw [hi0_eval, if_pos hL1]
          have hlt : y.getD (L - 1) 0 < u :=
            getD_lt_of_lt_searchsortedLeft y u (L - 1) (by omega)
          rw [hi0L, ← hun]
          exact hlt
  obtain ⟨hu_le_y1, hy01⟩ := hkey
  have hden : y.getD i1 0 - y.getD i0 0 ≠ 0 := by
    have := hy01
    intro hcon
    rw [sub_eq_zero] at hcon
    exact absurd hcon (ne_of_gt this)
  -- the sample
  rw [cdfSample]
  simp only [← hL_def, ← hR_def, ← hn_def, ← hi0_def, ← hi1_def, hden,
    if_neg hden]
  set x0 := x.getD i0 0 with hx0_def
  set x1 := x.getD i1 0 with hx1_def
  set y0 := y.getD i0 0 with hy0_def
  set y1 := y.getD i1 0 with hy1_def
  refine ⟨x0 + (u - y0) * (x1 - x0) / (y1 - y0), rfl, ?_, ?_⟩
  · -- x[0] ≤ x0 ≤ v
    have hx_le : x.getD 0 0 ≤ x0 := getD_mono hx (Nat.zero_le i0) (by omega)
    have hx01 : x0 ≤ x1 := getD_mono hx hi0_le_i1 (by omega)
    have hnum : 0 ≤ (u - y0) * (x1 - x0) / (y1 - y0) := by
      apply div_nonneg
      · nlinarith
      · nlinarith
    linarith
  · -- v ≤ x1 ≤ x[len-1]
    have hx01 : x0 ≤ x1 := getD_mono hx hi0_le_i1 (by omega)
    have hx_le : x1 ≤ x.getD (x.length - 1) 0 := by
      apply getD_mono hx (by omega) (by omega)
    have hfrac : (u - y0) * (x1 - x0) / (y1 - y0) ≤ x1 - x0 := by
      rw [div_le_iff (by nlinarith : (0:ℚ) < y1 - y0)]
      nlinarith
    linarith

/-- C4 (counterexample): the claim fails as stated.  For the monotonic
empirical CDF with domain `x = [0, 1]` and probabilities `y = [1/2, 1]`
(domain `[a,b] = [0,1]`), the uniform draw `u = 1/4 < y₀` makes both clipped
bracketing indices 0, the bracketing CDF samples are identical, and the
interpolation divides by zero — the sample is non-finite (NaN), not a value
in `[a, b]`. -/
theorem c4_counterexample :
    random_from_cdf ([0, 1], [1/2, 1]) [1/4] = [none] := by
  rw [random_from_cdf, List.map_cons, List.map_nil]
  have h : cdfSample [0, 1] [1/2, 1] (1/4) = none := by
    simp [cdfSample, searchsortedLeft, searchsortedRight, clipIdx]
    norm_num
  rw [h]

/-- C4 (amended): for an empirical CDF whose probability array is strictly
increasing (as `make_impact_flaw_cdf` produces) with at least two samples and
a nondecreasing domain array of the same length, `random_from_cdf` maps any
draws `u` lying between the first and last probability entries — which for
uniform draws from `[0,1)` holds whenever `y` starts at `0` and ends at `1` —
to exactly one well-defined (finite) sample each, all within the domain
`[a, b]`; for draws below the first probability entry (possible when
`y₀ > 0`, as in the counterexample) the interpolation divides by zero. -/
theorem c4_inverse_cdf_sound (x y : List ℚ) (hlen : x.length = y.length)
    (hn : 2 ≤ y.length) (hy : y.Sorted (· < ·)) (hx : x.Sorted (· ≤ ·))
    (us : List ℚ)
    (hus : ∀ u ∈ us, y.getD 0 0 ≤ u ∧ u ≤ y.getD (y.length - 1) 0) :
    (random_from_cdf (x, y) us).length = us.length ∧
    ∀ r ∈ random_from_cdf (x, y) us,
      ∃ v, r = some v ∧ x.getD 0 0 ≤ v ∧ v ≤ x.getD (x.length - 1) 0 := by
  constructor
  · rw [random_from_cdf, List.length_map]
  · intro r hr
    rw [random_from_cdf, List.mem_map] at hr
    obtain ⟨u, hu, rfl⟩ := hr
    obtain ⟨h0, h1⟩ := hus u hu
    obtain ⟨v, hv, hva, hvb⟩ := cdfSample_sound x y hlen hn hy hx u h0 h1
    exact ⟨v, hv, hva, hvb⟩

/-- Witness for C4's amended theorem with `x = [0,1]`, `y = [0,1]` and the
three draws `1/2`, `0` (the lower boundary, landing exactly on the sample
`y₀`) and `1` (the upper boundary): all samples are finite and in `[0, 1]`. -/
theorem c4_inverse_cdf_sound_witness :
    (random_from_cdf ([0, 1], [0, 1]) [1/2, 0, 1]).length = [(1:ℚ)/2, 0, 1].length ∧
    ∀ r ∈ random_from_cdf ([0, 1], [0, 1]) [1/2, 0, 1],
      ∃ v, r = some v ∧ ([(0:ℚ), 1]).getD 0 0 ≤ v ∧
        v ≤ ([(0:ℚ), 1]).getD ([(0:ℚ), 1].length - 1) 0 :=
  c4_inverse_cdf_sound [0, 1] [0, 1] rfl (by norm_num)
    (by simp [List.sorted_cons]) (by simp [List.sorted_cons])
    [1/2, 0, 1]
    (by
      intro u hu
      simp only [List.mem_cons, List.not_mem_nil, or_false] at hu
      rcases hu with rfl | rfl | rfl <;> norm_num)

/-! ## C7: the HCP lattice filler -/

/-- Squared-distance of two HCP coefficient triples, in units of `(δ/2)²`. -/
def hcpDistSqCoeff (p q : ℚ × ℚ × ℚ) : ℚ :=
  (p.1 - q.1) ^ 2 + 3 * (p.2.1 - q.2.1) ^ 2 + 8 / 3 * (p.2.2 - q.2.2) ^ 2

/-- Membership in `make_ball_hcp`: exactly the centered lattice coefficient
triples (formula `x = 2i + (j+k) mod 2`, `y`-coefficient `j + (k mod 2)/3`,
`z`-coefficient `k`, minus the grid centroid) that pass the norm cull. -/
theorem mem_make_ball_hcp {radius delta_r : ℚ} {p : ℚ × ℚ × ℚ} :
    p ∈ make_ball_hcp radius delta_r ↔
    (∃ x ∈ hcpIndices (hcpN1d radius delta_r),
      p = (((2 * x.1 + (x.2.1 + x.2.2) % 2 : ℕ) : ℚ) - hcpMean1 radius delta_r,
           (x.2.1 : ℚ) + ((x.2.2 % 2 : ℕ) : ℚ) / 3 - hcpMean2 radius delta_r,
           (x.2.2 : ℚ) - hcpMean3 radius delta_r)) ∧
    (delta_r / 2) ^ 2 * hcpNormSqCoeff p < radius ^ 2 := by
  rw [make_ball_hcp, List.mem_filter, hcpCentered, hcpRawCoeffs, List.map_map]
  constructor
  · rintro ⟨hmem, hcull⟩
    refine ⟨?_, by simpa using hcull⟩
    rw [List.mem_map] at hmem
    obtain ⟨x, hx, rfl⟩ := hmem
    exact ⟨x, hx, rfl⟩
  · rintro ⟨⟨x, hx, rfl⟩, hcull⟩
    refine ⟨?_, by simpa using hcull⟩
    rw [List.mem_map]
    exact ⟨x, hx, rfl⟩

/-- The coefficient squared distance depends only on coefficient differences,
so centering (a rigid translation) does not change it. -/
theorem hcpDistSqCoeff_center (a b : ℚ × ℚ × ℚ) (m1 m2 m3 : ℚ) :
    hcpDistSqCoeff (a.1 - m1, a.2.1 - m2, a.2.2 - m3)
      (b.1 - m1, b.2.1 - m2, b.2.2 - m3) = hcpDistSqCoeff a b := by
  simp only [hcpDistSqCoeff]
  ring

/-- Lattice neighbors along the first index are at coefficient squared
distance exactly `4` (Euclidean distance exactly `δ`). -/
theorem hcp_adjacent_i (i j k : ℕ) :
    hcpDistSqCoeff (hcpCoeff (i + 1, j, k)) (hcpCoeff (i, j, k)) = 4 := by
  simp only [hcpDistSqCoeff, hcpCoeff]
  push_cast
  ring

/-- Lattice neighbors along the second index are at coefficient squared
distance exactly `4` (Euclidean distance exactly `δ`). -/
theorem hcp_adjacent_j (i j k : ℕ) :
    hcpDistSqCoeff (hcpCoeff (i, j + 1, k)) (hcpCoeff (i, j, k)) = 4 := by
  simp only [hcpDistSqCoeff, hcpCoeff]
  rcases Nat.even_or_odd (j + k) with he | ho
  · have h1 : (j + 1 + k) % 2 = 1 := by
      obtain ⟨m, hm⟩ := he
      omega
    have h2 : (j + k) % 2 = 0 := by
      obtain ⟨m, hm⟩ := he
      omega
    rw [h1, h2]
    push_cast
    ring
  · have h1 : (j + 1 + k) % 2 = 0 := by
      obtain ⟨m, hm⟩ := ho
      omega
    have h2 : (j + k) % 2 = 1 := by
      obtain ⟨m, hm⟩ := ho
      omega
    rw [h1, h2]
    push_cast
    ring

/-- Lattice neighbors along the third index are at coefficient squared
distance exactly `4` (Euclidean distance exactly `δ`). -/
theorem hcp_adjacent_k (i j k : ℕ) :
    hcpDistSqCoeff (hcpCoeff (i, j, k + 1)) (hcpCoeff (i, j, k)) = 4 := by
  simp only [hcpDistSqCoeff, hcpCoeff]
  rcases Nat.even_or_odd k with hk | hk
  · obtain ⟨m, hm⟩ := hk
    have h1 : (k + 1) % 2 = 1 := by omega
    have h2 : k % 2 = 0 := by omega
    rcases Nat.even_or_odd (j + k) with hjk | hjk
    · have h3 : (j + (k + 1)) % 2 = 1 := by
        obtain ⟨m2, hm2⟩ := hjk
        omega
      have h4 : (j + k) % 2 = 0 := by
        obtain ⟨m2, hm2⟩ := hjk
        omega
      rw [h1, h2, h3, h4]
      push_cast
      ring
    · have h3 : (j + (k + 1)) % 2 = 0 := by
        obtain ⟨m2, hm2⟩ := hjk
        omega
      have h4 : (j + k) % 2 = 1 := by
        obtain ⟨m2, hm2⟩ := hjk
        omega
      rw [h1, h2, h3, h4]
      push_cast
      ring
  · obtain ⟨m, hm⟩ := hk
    have h1 : (k + 1) % 2 = 0 := by omega
    have h2 : k % 2 = 1 := by omega
    rcases Nat.even_or_odd (j + k) with hjk | hjk
    · have h3 : (j + (k + 1)) % 2 = 1 := by
        obtain ⟨m2, hm2⟩ := hjk
        omega
      have h4 : (j + k) % 2 = 0 := by
        obtain ⟨m2, hm2⟩ := hjk
        omega
      rw [h1, h2, h3, h4]
      push_cast
      ring
    · have h3 : (j + (k + 1)) % 2 = 0 := by
        obtain ⟨m2, hm2⟩ := hjk
        omega
      have h4 : (j + k) % 2 = 1 := by
        obtain ⟨m2, hm2⟩ := hjk
        omega
      rw [h1, h2, h3, h4]
      push_cast
      ring

/-- Sum of a `flatMap` is the sum of the per-element sums. -/
theorem sum_flatMapQ {α : Type} (l : List α) (f : α → List ℚ) :
    (l.flatMap f).sum = (l.map fun a => (f a).sum).sum := by
  induction l with
  | nil => simp
  | cons a l ih => simp [List.flatMap_cons, List.sum_append, ih]

/-- Pointwise sum of two mapped functions. -/
theorem sum_map_addQ {α : Type} (l : List α) (f g : α → ℚ) :
    (l.map fun x => f x + g x).sum = (l.map f).sum + (l.map g).sum := by
  induction l with
  | nil => simp
  | cons a l ih =>
    simp only [List.map_cons, List.sum_cons, ih]
    ring

/-- Sum of a constant. -/
theorem sum_map_constQ {α : Type} (l : List α) (c : ℚ) :
    (l.map fun _ => c).sum = (l.length : ℚ) * c := by
  induction l with
  | nil => simp
  | cons a l ih =>
    simp only [List.map_cons, List.sum_cons, ih, List.length_cons]
    push_cast
    ring

/-- Gauss sum over `List.range`. -/
theorem sum_range_castQ (N : ℕ) :
    ((List.range N).map fun k : ℕ => (k : ℚ)).sum = (N : ℚ) * ((N : ℚ) - 1) / 2 := by
  induction N with
  | zero => simp
  | succ n ih =>
    rw [List.range_succ, List.map_append, List.sum_append, ih]
    simp only [List.map_cons, List.map_nil, List.sum_cons, List.sum_nil]
    push_cast
    ring

/-- Sum of shifted parities over `List.range`, in `ℕ`. -/
theorem sum_range_par_nat (c N : ℕ) :
    ((List.range N).map fun k : ℕ => (c + k) % 2).sum = N / 2 + c % 2 * (N % 2) := by
  induction N with
  | zero => simp
  | succ n ih =>
    rw [List.range_succ, List.map_append, List.sum_append, ih]
    simp only [List.map_cons, List.map_nil, List.sum_cons, List.sum_nil]
    rcases Nat.even_or_odd c with ⟨m, hm⟩ | ⟨m, hm⟩
    · rcases Nat.even_or_odd n with ⟨m2, hm2⟩ | ⟨m2, hm2⟩
      · have e1 : c % 2 = 0 := by omega
        have e2 : n % 2 = 0 := by omega
        have e3 : (n + 1) % 2 = 1 := by omega
        rw [e1, e2, e3]
        omega
      · have e1 : c % 2 = 0 := by omega
        have e2 : n % 2 = 1 := by omega
        have e3 : (n + 1) % 2 = 0 := by omega
        rw [e1, e2, e3]
        omega
    · rcases Nat.even_or_odd n with ⟨m2, hm2⟩ | ⟨m2, hm2⟩
      · have e1 : c % 2 = 1 := by omega
        have e2 : n % 2 = 0 := by omega
        have e3 : (n + 1) % 2 = 1 := by omega
        rw [e1, e2, e3]
        omega
      · have e1 : c % 2 = 1 := by omega
        have e2 : n % 2 = 1 := by omega
        have e3 : (n + 1) % 2 = 0 := by omega
        rw [e1, e2, e3]
        omega

/-- `Σ_{j,k<N} (j+k) % 2 = ⌊N/2⌋·(N + N % 2)`: the number of opposite-parity
index pairs in the square grid. -/
def hcpParityCount (N : ℕ) : ℕ := N / 2 * (N + N % 2)

/-- ℕ-valued pointwise sum split. -/
theorem sum_map_add_nat {α : Type} (l : List α) (f g : α → ℕ) :
    (l.map fun x => f x + g x).sum = (l.map f).sum + (l.map g).sum := by
  induction l with
  | nil => simp
  | cons a l ih =>
    simp only [List.map_cons, List.sum_cons, ih]
    omega

/-- ℕ-valued constant sum. -/
theorem sum_map_const_nat {α : Type} (l : List α) (c : ℕ) :
    (l.map fun _ => c).sum = l.length * c := by
  induction l with
  | nil => simp
  | cons a l ih =>
    simp only [List.map_cons, List.sum_cons, ih, List.length_cons]
    ring

/-- ℕ-valued right-multiple sum. -/
theorem sum_map_mul_nat {α : Type} (l : List α) (f : α → ℕ) (c : ℕ) :
    (l.map fun x => f x * c).sum = (l.map f).sum * c := by
  induction l with
  | nil => simp
  | cons a l ih =>
    simp only [List.map_cons, List.sum_cons, ih]
    ring

/-- The double parity sum evaluates to `hcpParityCount`. -/
theorem sum_par_double (N : ℕ) :
    ((List.range N).map fun j : ℕ =>
      ((List.range N).map fun k : ℕ => ((j + k) % 2 : ℕ)).sum).sum =
    hcpParityCount N := by
  have h1 : ((List.range N).map fun j : ℕ =>
      ((List.range N).map fun k : ℕ => ((j + k) % 2 : ℕ)).sum) =
      ((List.range N).map fun j : ℕ => N / 2 + j % 2 * (N % 2)) :=
    List.map_congr_left fun j _ => sum_range_par_nat j N
  rw [h1, sum_map_add_nat, sum_map_const_nat, sum_map_mul_nat, List.length_range]
  have h0 : ((List.range N).map fun j : ℕ => j % 2).sum = N / 2 := by
    have := sum_range_par_nat 0 N
    simpa using this
  rw [h0, hcpParityCount]
  ring

/-- Reduce a sum over the index grid to three nested range sums. -/
theorem sum_hcpIndices_map (N : ℕ) (f : ℕ × ℕ × ℕ → ℚ) :
    ((hcpIndices N).map f).sum =
    ((List.range N).map fun i => ((List.range N).map fun j =>
      ((List.range N).map fun k => f (i, j, k)).sum).sum).sum := by
  simp only [hcpIndices, List.map_flatMap, sum_flatMapQ, List.map_map,
    Function.comp_def]

/-- The index grid has `N³` entries. -/
theorem length_hcpIndices (N : ℕ) : (hcpIndices N).length = N ^ 3 := by
  simp only [hcpIndices, List.length_flatMap, List.map_map, Function.comp_def,
    List.length_map, List.length_range]
  rw [show (fun i : ℕ => ((List.range N).map fun _ : ℕ => N).sum) =
      (fun _ : ℕ => ((List.range N).map fun _ : ℕ => N).sum) from rfl,
    sum_map_const_nat, List.length_range, sum_map_const_nat, List.length_range]
  ring

/-- Cast a `ℕ`-valued mapped sum to `ℚ`. -/
theorem cast_sum_map {α : Type} (l : List α) (f : α → ℕ) :
    ((l.map fun x => ((f x : ℕ) : ℚ))).sum = (((l.map f).sum : ℕ) : ℚ) := by
  induction l with
  | nil => simp
  | cons a l ih => simp [ih]

/-- Sum of the first HCP coefficient over the grid. -/
theorem sum_hcp_a (N : ℕ) :
    (((hcpIndices N).map hcpCoeff).map fun p => p.1).sum =
    (N : ℚ) ^ 3 * ((N : ℚ) - 1) + (N : ℚ) * (hcpParityCount N : ℚ) := by
  rw [List.map_map]
  have hs := sum_hcpIndices_map N (fun x => (hcpCoeff x).1)
  rw [show ((fun p : ℚ × ℚ × ℚ => p.1) ∘ hcpCoeff) = fun x => (hcpCoeff x).1 from rfl,
    hs]
  have hinner : ∀ i j : ℕ,
      ((List.range N).map fun k : ℕ => (hcpCoeff (i, j, k)).1).sum =
      (N : ℚ) * (2 * i) + ((N / 2 + j % 2 * (N % 2) : ℕ) : ℚ) := by
    intro i j
    have h1 : ((List.range N).map fun k : ℕ => (hcpCoeff (i, j, k)).1) =
        (List.range N).map fun k : ℕ => ((2 * i : ℕ) : ℚ) + (((j + k) % 2 : ℕ) : ℚ) := by
      apply List.map_congr_left
      intro k _
      rw [hcpCoeff]
      push_cast
      ring
    rw [h1, sum_map_addQ]
    rw [show ((List.range N).map fun _ : ℕ => ((2 * i : ℕ) : ℚ)) =
        (List.range N).map (fun _ : ℕ => (((2 * i : ℕ)) : ℚ)) from rfl,
      sum_map_constQ, List.length_range]
    rw [cast_sum_map, sum_range_par_nat]
    push_cast
    ring
  have hmid : ((List.range N).map fun i => ((List.range N).map fun j =>
      ((List.range N).map fun k => (hcpCoeff (i, j, k)).1).sum).sum) =
      (List.range N).map fun i : ℕ => ((List.range N).map fun j : ℕ =>
        (N : ℚ) * (2 * (i : ℚ)) + ((N / 2 + j % 2 * (N % 2) : ℕ) : ℚ)).sum := by
    apply List.map_congr_left
    intro i _
    congr 1
    exact List.map_congr_left fun j _ => hinner i j
  rw [hmid]
  have hmid2 : ∀ i : ℕ, ((List.range N).map fun j : ℕ =>
      (N : ℚ) * (2 * (i : ℚ)) + ((N / 2 + j % 2 * (N % 2) : ℕ) : ℚ)).sum =
      (N : ℚ) * ((N : ℚ) * (2 * (i : ℚ))) + (((N * (N / 2) + N / 2 * (N % 2) : ℕ)) : ℚ) := by
    intro i
    rw [sum_map_addQ, sum_map_constQ, List.length_range, cast_sum_map]
    have : ((List.range N).map fun j : ℕ => (N / 2 + j % 2 * (N % 2) : ℕ)).sum =
        N * (N / 2) + N / 2 * (N % 2) := by
      rw [sum_map_add_nat, sum_map_const_nat, List.length_range, sum_map_mul_nat]
      have h0 : ((List.range N).map fun j : ℕ => j % 2).sum = N / 2 := by
        have := sum_range_par_nat 0 N
        simpa using this
      rw [h0]
    rw [this]
  have hmid3 : ((List.range N).map fun i : ℕ => ((List.range N).map fun j : ℕ =>
      (N : ℚ) * (2 * (i : ℚ)) + ((N / 2 + j % 2 * (N % 2) : ℕ) : ℚ)).sum) =
      (List.range N).map fun i : ℕ =>
        (N : ℚ) * ((N : ℚ) * (2 * (i : ℚ))) + (((N * (N / 2) + N / 2 * (N % 2) : ℕ)) : ℚ) :=
    List.map_congr_left fun i _ => hmid2 i
  rw [hmid3, sum_map_addQ, sum_map_constQ, List.length_range]
  have hgauss : ((List.range N).map fun i : ℕ =>
      (N : ℚ) * ((N : ℚ) * (2 * (i : ℚ)))).sum =
      2 * (N : ℚ) ^ 2 * (((N : ℚ) * ((N : ℚ) - 1)) / 2) := by
    have h1 : ((List.range N).map fun i : ℕ => (N : ℚ) * ((N : ℚ) * (2 * (i : ℚ)))) =
        (List.range N).map fun i : ℕ => 2 * (N : ℚ) ^ 2 * (i : ℚ) := by
      apply List.map_congr_left
      intro i _
      ring
    rw [h1, List.sum_map_mul_left, sum_range_castQ]
  rw [hgauss]
  have hsplit : ((N * (N / 2) + N / 2 * (N % 2) : ℕ) : ℚ) = (hcpParityCount N : ℚ) := by
    rw [hcpParityCount]
    push_cast
    ring
  rw [hsplit]
  ring

/-- Sum of the second HCP coefficient over the grid. -/
theorem sum_hcp_b (N : ℕ) :
    (((hcpIndices N).map hcpCoeff).map fun p => p.2.1).sum =
    (N : ℚ) ^ 2 * ((N : ℚ) * ((N : ℚ) - 1) / 2) +
      (N : ℚ) ^ 2 * ((N / 2 : ℕ) : ℚ) / 3 := by
  rw [List.map_map]
  have hs := sum_hcpIndices_map N (fun x => (hcpCoeff x).2.1)
  rw [show ((fun p : ℚ × ℚ × ℚ => p.2.1) ∘ hcpCoeff) =
      fun x => (hcpCoeff x).2.1 from rfl, hs]
  have hinner : ∀ i j : ℕ,
      ((List.range N).map fun k : ℕ => (hcpCoeff (i, j, k)).2.1).sum =
      (N : ℚ) * (j : ℚ) + ((N / 2 : ℕ) : ℚ) / 3 := by
    intro i j
    have h1 : ((List.range N).map fun k : ℕ => (hcpCoeff (i, j, k)).2.1) =
        (List.range N).map fun k : ℕ => (j : ℚ) + (((k % 2 : ℕ) : ℚ)) * (1 / 3) := by
      apply List.map_congr_left
      intro k _
      rw [hcpCoeff]
      push_cast
      ring
    rw [h1, sum_map_addQ, sum_map_constQ, List.length_range, List.sum_map_mul_right,
      cast_sum_map]
    have h0 : ((List.range N).map fun k : ℕ => k % 2).sum = N / 2 := by
      have := sum_range_par_nat 0 N
      simpa using this
    rw [h0]
    ring
  have hmid : ((List.range N).map fun i => ((List.range N).map fun j =>
      ((List.range N).map fun k => (hcpCoeff (i, j, k)).2.1).sum).sum) =
      (List.range N).map fun i : ℕ => ((List.range N).map fun j : ℕ =>
        (N : ℚ) * (j : ℚ) + ((N / 2 : ℕ) : ℚ) / 3).sum := by
    apply List.map_congr_left
    intro i _
    congr 1
    exact List.map_congr_left fun j _ => hinner i j
  rw [hmid]
  have hmid2 : ((List.range N).map fun j : ℕ =>
      (N : ℚ) * (j : ℚ) + ((N / 2 : ℕ) : ℚ) / 3).sum =
      (N : ℚ) * ((N : ℚ) * ((N : ℚ) - 1) / 2) + (N : ℚ) * (((N / 2 : ℕ) : ℚ) / 3) := by
    rw [sum_map_addQ, sum_map_constQ, List.length_range]
    have h1 : ((List.range N).map fun j : ℕ => (N : ℚ) * (j : ℚ)).sum =
        (N : ℚ) * ((N : ℚ) * ((N : ℚ) - 1) / 2) := by
      rw [List.sum_map_mul_left, sum_range_castQ]
    rw [h1]
  rw [show ((List.range N).map fun i : ℕ => ((List.range N).map fun j : ℕ =>
      (N : ℚ) * (j : ℚ) + ((N / 2 : ℕ) : ℚ) / 3).sum) =
      (List.range N).map (fun _ : ℕ => ((List.range N).map fun j : ℕ =>
      (N : ℚ) * (j : ℚ) + ((N / 2 : ℕ) : ℚ) / 3).sum) from rfl,
    sum_map_constQ, List.length_range, hmid2]
  ring

/-- Sum of the third HCP coefficient over the grid. -/
theorem sum_hcp_c (N : ℕ) :
    (((hcpIndices N).map hcpCoeff).map fun p => p.2.2).sum =
    (N : ℚ) ^ 2 * ((N : ℚ) * ((N : ℚ) - 1) / 2) := by
  rw [List.map_map]
  have hs := sum_hcpIndices_map N (fun x => (hcpCoeff x).2.2)
  rw [show ((fun p : ℚ × ℚ × ℚ => p.2.2) ∘ hcpCoeff) =
      fun x => (hcpCoeff x).2.2 from rfl, hs]
  have hinner : ∀ i j : ℕ,
      ((List.range N).map fun k : ℕ => (hcpCoeff (i, j, k)).2.2).sum =
      (N : ℚ) * ((N : ℚ) - 1) / 2 := by
    intro i j
    have h1 : ((List.range N).map fun k : ℕ => (hcpCoeff (i, j, k)).2.2) =
        (List.range N).map fun k : ℕ => (k : ℚ) := by
      apply List.map_congr_left
      intro k _
      rw [hcpCoeff]
    rw [h1, sum_range_castQ]
  have hmid : ((List.range N).map fun i => ((List.range N).map fun j =>
      ((List.range N).map fun k => (hcpCoeff (i, j, k)).2.2).sum).sum) =
      (List.range N).map fun i : ℕ => ((List.range N).map fun j : ℕ =>
        (N : ℚ) * ((N : ℚ) - 1) / 2).sum := by
    apply List.map_congr_left
    intro i _
    congr 1
    exact List.map_congr_left fun j _ => hinner i j
  rw [hmid]
  rw [show ((List.range N).map fun i : ℕ => ((List.range N).map fun j : ℕ =>
      (N : ℚ) * ((N : ℚ) - 1) / 2).sum) =
      (List.range N).map (fun _ : ℕ => ((List.range N).map (fun _ : ℕ =>
      (N : ℚ) * ((N : ℚ) - 1) / 2)).sum) from rfl,
    sum_map_constQ, List.length_range, sum_map_constQ, List.length_range]
  ring

/-- Membership in the index grid is componentwise boundedness. -/
theorem mem_hcpIndices {N : ℕ} {x : ℕ × ℕ × ℕ} :
    x ∈ hcpIndices N ↔ x.1 < N ∧ x.2.1 < N ∧ x.2.2 < N := by
  obtain ⟨i, j, k⟩ := x
  simp only [hcpIndices, List.mem_flatMap, List.mem_map, List.mem_range]
  constructor
  · rintro ⟨i', hi', j', hj', k', hk', h⟩
    obtain ⟨rfl, rfl, rfl⟩ := Prod.mk.injEq .. ▸ h
    · exact ⟨hi', hj', hk'⟩
  · rintro ⟨hi, hj, hk⟩
    exact ⟨i, hi, j, hj, k, hk, rfl⟩

/-- Twice the opposite-parity pair count is at most `N²`. -/
theorem hcpParityCount_le (N : ℕ) : 2 * hcpParityCount N ≤ N ^ 2 := by
  rw [hcpParityCount]
  rcases Nat.even_or_odd N with ⟨m, hm⟩ | ⟨m, hm⟩
  · have e1 : N / 2 = m := by omega
    have e2 : N % 2 = 0 := by omega
    rw [e1, e2, hm]
    nlinarith
  · have e1 : N / 2 = m := by omega
    have e2 : N % 2 = 1 := by omega
    rw [e1, e2, hm]
    nlinarith

/-- Closed form of the first-coordinate grid mean. -/
theorem hcpMean1_eq (radius delta_r : ℚ) (hN : 0 < hcpN1d radius delta_r) :
    hcpMean1 radius delta_r =
    ((hcpN1d radius delta_r : ℚ) - 1) +
      (hcpParityCount (hcpN1d radius delta_r) : ℚ) / (hcpN1d radius delta_r : ℚ) ^ 2 := by
  have hNQ : ((hcpN1d radius delta_r : ℕ) : ℚ) ≠ 0 := by
    have : (0 : ℕ) < hcpN1d radius delta_r := hN
    positivity
  rw [hcpMean1, hcpRawCoeffs, sum_hcp_a, List.length_map, length_hcpIndices]
  push_cast
  field_simp
  ring

/-- Closed form of the second-coordinate grid mean. -/
theorem hcpMean2_eq (radius delta_r : ℚ) (hN : 0 < hcpN1d radius delta_r) :
    hcpMean2 radius delta_r =
    ((hcpN1d radius delta_r : ℚ) - 1) / 2 +
      ((hcpN1d radius delta_r / 2 : ℕ) : ℚ) / (3 * (hcpN1d radius delta_r : ℚ)) := by
  have hNQ : ((hcpN1d radius delta_r : ℕ) : ℚ) ≠ 0 := by
    have : (0 : ℕ) < hcpN1d radius delta_r := hN
    positivity
  rw [hcpMean2, hcpRawCoeffs, sum_hcp_b, List.length_map, length_hcpIndices]
  push_cast
  field_simp
  ring

/-- Closed form of the third-coordinate grid mean. -/
theorem hcpMean3_eq (radius delta_r : ℚ) (hN : 0 < hcpN1d radius delta_r) :
    hcpMean3 radius delta_r = ((hcpN1d radius delta_r : ℚ) - 1) / 2 := by
  have hNQ : ((hcpN1d radius delta_r : ℕ) : ℚ) ≠ 0 := by
    have : (0 : ℕ) < hcpN1d radius delta_r := hN
    positivity
  rw [hcpMean3, hcpRawCoeffs, sum_hcp_c, List.length_map, length_hcpIndices]
  push_cast
  field_simp
  ring

/-- The first-coordinate mean lies in `[N-1, N-1/2]`. -/
theorem hcpMean1_bounds (radius delta_r : ℚ) (hN : 0 < hcpN1d radius delta_r) :
    ((hcpN1d radius delta_r : ℚ) - 1) ≤ hcpMean1 radius delta_r ∧
    hcpMean1 radius delta_r ≤ ((hcpN1d radius delta_r : ℚ) - 1) + 1 / 2 := by
  set N := hcpN1d radius delta_r
  have hNQ : (0 : ℚ) < (N : ℚ) := by exact_mod_cast hN
  rw [hcpMean1_eq radius delta_r hN]
  constructor
  · have h1 : (0 : ℚ) ≤ (hcpParityCount N : ℚ) / (N : ℚ) ^ 2 := by positivity
    linarith
  · have h2 : (2 * hcpParityCount N : ℕ) ≤ N ^ 2 := hcpParityCount_le N
    have h2Q : (2 : ℚ) * (hcpParityCount N : ℚ) ≤ (N : ℚ) ^ 2 := by exact_mod_cast h2
    have h3 : (hcpParityCount N : ℚ) / (N : ℚ) ^ 2 ≤ 1 / 2 := by
      rw [div_le_div_iff (by positivity) (by norm_num)]
      linarith
    linarith

/-- The second-coordinate mean lies in `[(N-1)/2, (N-1)/2 + 1/6]`. -/
theorem hcpMean2_bounds (radius delta_r : ℚ) (hN : 0 < hcpN1d radius delta_r) :
    ((hcpN1d radius delta_r : ℚ) - 1) / 2 ≤ hcpMean2 radius delta_r ∧
    hcpMean2 radius delta_r ≤ ((hcpN1d radius delta_r : ℚ) - 1) / 2 + 1 / 6 := by
  set N := hcpN1d radius delta_r
  have hNQ : (0 : ℚ) < (N : ℚ) := by exact_mod_cast hN
  rw [hcpMean2_eq radius delta_r hN]
  constructor
  · have h1 : (0 : ℚ) ≤ ((N / 2 : ℕ) : ℚ) / (3 * (N : ℚ)) := by positivity
    linarith
  · have h2 : (2 * (N / 2) : ℕ) ≤ N := by omega
    have h2Q : (2 : ℚ) * ((N / 2 : ℕ) : ℚ) ≤ (N : ℚ) := by exact_mod_cast h2
    have h3 : ((N / 2 : ℕ) : ℚ) / (3 * (N : ℚ)) ≤ 1 / 6 := by
      rw [div_le_div_iff (by positivity) (by norm_num)]
      linarith
    linarith

/-- The centered coefficient triple of one grid index. -/
def hcpCenteredAt (radius delta_r : ℚ) (x : ℕ × ℕ × ℕ) : ℚ × ℚ × ℚ :=
  (((2 * x.1 + (x.2.1 + x.2.2) % 2 : ℕ) : ℚ) - hcpMean1 radius delta_r,
   (x.2.1 : ℚ) + ((x.2.2 % 2 : ℕ) : ℚ) / 3 - hcpMean2 radius delta_r,
   (x.2.2 : ℚ) - hcpMean3 radius delta_r)

/-- Membership in `make_ball_hcp`, phrased with `hcpCenteredAt`. -/
theorem mem_make_ball_hcp_at {radius delta_r : ℚ} {p : ℚ × ℚ × ℚ} :
    p ∈ make_ball_hcp radius delta_r ↔
    (∃ x ∈ hcpIndices (hcpN1d radius delta_r), p = hcpCenteredAt radius delta_r x) ∧
    (delta_r / 2) ^ 2 * hcpNormSqCoeff p < radius ^ 2 :=
  mem_make_ball_hcp

/-- Centering is a translation, so the coefficient squared distance of two
centered grid points equals that of the raw coefficient triples. -/
theorem hcpDistSqCoeff_centeredAt (radius delta_r : ℚ) (x x' : ℕ × ℕ × ℕ) :
    hcpDistSqCoeff (hcpCenteredAt radius delta_r x) (hcpCenteredAt radius delta_r x') =
    hcpDistSqCoeff (hcpCoeff x) (hcpCoeff x') := by
  simp only [hcpCenteredAt, hcpCoeff, hcpDistSqCoeff]
  ring

/-- The descent invariant: a valid grid index whose centered coefficient norm
does not exceed that of a retained point is itself retained. -/
theorem hcp_step_kept {radius delta_r : ℚ} {x x' : ℕ × ℕ × ℕ}
    (hx' : x' ∈ hcpIndices (hcpN1d radius delta_r))
    (hkept : (delta_r / 2) ^ 2 *
      hcpNormSqCoeff (hcpCenteredAt radius delta_r x) < radius ^ 2)
    (hle : hcpNormSqCoeff (hcpCenteredAt radius delta_r x') ≤
      hcpNormSqCoeff (hcpCenteredAt radius delta_r x)) :
    hcpCenteredAt radius delta_r x' ∈ make_ball_hcp radius delta_r := by
  rw [mem_make_ball_hcp_at]
  refine ⟨⟨x', hx', rfl⟩, lt_of_le_of_lt ?_ hkept⟩
  nlinarith [sq_nonneg (delta_r / 2)]

/-- Unfolding of `hcpCenteredAt` at an explicit index triple. -/
theorem hcpCenteredAt_def (radius delta_r : ℚ) (i j k : ℕ) :
    hcpCenteredAt radius delta_r (i, j, k) =
    (((2 * i + (j + k) % 2 : ℕ) : ℚ) - hcpMean1 radius delta_r,
     (j : ℚ) + ((k % 2 : ℕ) : ℚ) / 3 - hcpMean2 radius delta_r,
     (k : ℚ) - hcpMean3 radius delta_r) := rfl

/-- The coefficient squared distance is symmetric. -/
theorem hcpDistSqCoeff_comm (p q : ℚ × ℚ × ℚ) :
    hcpDistSqCoeff p q = hcpDistSqCoeff q p := by
  simp only [hcpDistSqCoeff]
  ring

/-- Descent step: when the centered first coefficient is at least `1`, the
index one step down in `i` is valid, does not increase the centered norm, and
sits at coefficient squared distance exactly `4`. -/
theorem hcp_step_a_down (radius delta_r : ℚ) (i j k : ℕ)
    (hmem : (i, j, k) ∈ hcpIndices (hcpN1d radius delta_r))
    (ha : 1 ≤ ((2 * i + (j + k) % 2 : ℕ) : ℚ) - hcpMean1 radius delta_r) :
    ∃ x' ∈ hcpIndices (hcpN1d radius delta_r),
      hcpNormSqCoeff (hcpCenteredAt radius delta_r x') ≤
        hcpNormSqCoeff (hcpCenteredAt radius delta_r (i, j, k)) ∧
      hcpDistSqCoeff (hcpCenteredAt radius delta_r (i, j, k))
        (hcpCenteredAt radius delta_r x') = 4 := by
  have hm' := hmem
  simp only [mem_hcpIndices] at hm'
  obtain ⟨hi, hj, hk⟩ := hm'
  have hN : 0 < hcpN1d radius delta_r := lt_of_le_of_lt (Nat.zero_le i) hi
  have hM1 := (hcpMean1_bounds radius delta_r hN).1
  have hNle : ((hcpN1d radius delta_r : ℕ) : ℚ) ≤ ((2 * i + (j + k) % 2 : ℕ) : ℚ) := by
    push_cast at ha ⊢
    linarith
  have hge : hcpN1d radius delta_r ≤ 2 * i + (j + k) % 2 := by exact_mod_cast hNle
  have hi1 : 1 ≤ i := by omega
  refine ⟨(i - 1, j, k), mem_hcpIndices.mpr ⟨by omega, hj, hk⟩, ?_, ?_⟩
  · have hpar : (i - 1 + 1 + j + k) = i + j + k := by omega
    have e1 : ((2 * (i - 1) + (j + k) % 2 : ℕ) : ℚ) =
        ((2 * i + (j + k) % 2 : ℕ) : ℚ) - 2 := by
      have h : 2 * (i - 1) + (j + k) % 2 + 2 = 2 * i + (j + k) % 2 := by omega
      have h2 := congrArg (fun n : ℕ => (n : ℚ)) h
      push_cast at h2
      push_cast
      linarith
    simp only [hcpCenteredAt_def, hcpNormSqCoeff]
    rw [e1]
    nlinarith [ha]
  · rw [hcpDistSqCoeff_centeredAt]
    have h := hcp_adjacent_i (i - 1) j k
    rwa [show i - 1 + 1 = i by omega] at h

/-- Descent step: when the centered first coefficient is at most `-1`, the
index one step up in `i` is valid, does not increase the centered norm, and
sits at coefficient squared distance exactly `4`. -/
theorem hcp_step_a_up (radius delta_r : ℚ) (i j k : ℕ)
    (hmem : (i, j, k) ∈ hcpIndices (hcpN1d radius delta_r))
    (ha : ((2 * i + (j + k) % 2 : ℕ) : ℚ) - hcpMean1 radius delta_r ≤ -1) :
    ∃ x' ∈ hcpIndices (hcpN1d radius delta_r),
      hcpNormSqCoeff (hcpCenteredAt radius delta_r x') ≤
        hcpNormSqCoeff (hcpCenteredAt radius delta_r (i, j, k)) ∧
      hcpDistSqCoeff (hcpCenteredAt radius delta_r (i, j, k))
        (hcpCenteredAt radius delta_r x') = 4 := by
  have hm' := hmem
  simp only [mem_hcpIndices] at hm'
  obtain ⟨hi, hj, hk⟩ := hm'
  have hN : 0 < hcpN1d radius delta_r := lt_of_le_of_lt (Nat.zero_le i) hi
  have hM1 := (hcpMean1_bounds radius delta_r hN).2
  have hlt : ((2 * i + (j + k) % 2 + 2 : ℕ) : ℚ) <
      ((hcpN1d radius delta_r : ℕ) : ℚ) + 1 := by
    push_cast at ha ⊢
    linarith
  have hlt2 : 2 * i + (j + k) % 2 + 2 < hcpN1d radius delta_r + 1 := by
    exact_mod_cast hlt
  refine ⟨(i + 1, j, k), mem_hcpIndices.mpr ⟨by omega, hj, hk⟩, ?_, ?_⟩
  · have e1 : ((2 * (i + 1) + (j + k) % 2 : ℕ) : ℚ) =
        ((2 * i + (j + k) % 2 : ℕ) : ℚ) + 2 := by
      push_cast
      ring
    simp only [hcpCenteredAt_def, hcpNormSqCoeff]
    rw [e1]
    nlinarith [ha]
  · rw [hcpDistSqCoeff_centeredAt, hcpDistSqCoeff_comm]
    exact hcp_adjacent_i i j k

/-- Descent step: when the centered second coefficient is at least `1` and the
centered first coefficient is in `(-1, 1)`, the index one step down in `j` is
valid, does not increase the centered norm, and sits at coefficient squared
distance exactly `4`. -/
theorem hcp_step_b_down (radius delta_r : ℚ) (i j k : ℕ)
    (hmem : (i, j, k) ∈ hcpIndices (hcpN1d radius delta_r))
    (ha1 : -1 < ((2 * i + (j + k) % 2 : ℕ) : ℚ) - hcpMean1 radius delta_r)
    (ha2 : ((2 * i + (j + k) % 2 : ℕ) : ℚ) - hcpMean1 radius delta_r < 1)
    (hb : 1 ≤ (j : ℚ) + ((k % 2 : ℕ) : ℚ) / 3 - hcpMean2 radius delta_r) :
    ∃ x' ∈ hcpIndices (hcpN1d radius delta_r),
      hcpNormSqCoeff (hcpCenteredAt radius delta_r x') ≤
        hcpNormSqCoeff (hcpCenteredAt radius delta_r (i, j, k)) ∧
      hcpDistSqCoeff (hcpCenteredAt radius delta_r (i, j, k))
        (hcpCenteredAt radius delta_r x') = 4 := by
  have hm' := hmem
  simp only [mem_hcpIndices] at hm'
  obtain ⟨hi, hj, hk⟩ := hm'
  have hN : 0 < hcpN1d radius delta_r := lt_of_le_of_lt (Nat.zero_le i) hi
  have hM2 := (hcpMean2_bounds radius delta_r hN).1
  have hN1 : (1 : ℚ) ≤ ((hcpN1d radius delta_r : ℕ) : ℚ) := by exact_mod_cast hN
  have hk2 : ((k % 2 : ℕ) : ℚ) ≤ 1 := by
    have h : k % 2 ≤ 1 := by omega
    exact_mod_cast h
  have hjpos : (0 : ℚ) < (j : ℚ) := by linarith
  have hj1 : 1 ≤ j := by
    have h : 0 < j := by exact_mod_cast hjpos
    omega
  refine ⟨(i, j - 1, k), mem_hcpIndices.mpr
    ⟨hi, by show j - 1 < hcpN1d radius delta_r; omega, hk⟩, ?_, ?_⟩
  · have ej : ((j - 1 : ℕ) : ℚ) = (j : ℚ) - 1 := by
      have h : j - 1 + 1 = j := by omega
      have h2 := congrArg (fun n : ℕ => (n : ℚ)) h
      push_cast at h2
      linarith
    have hm2 : (j + k) % 2 = 0 ∨ (j + k) % 2 = 1 := by omega
    simp only [hcpCenteredAt_def, hcpNormSqCoeff]
    rcases hm2 with hm | hm
    · have hm'' : (j - 1 + k) % 2 = 1 := by omega
      rw [hm, hm'', ej]
      rw [hm] at ha1 ha2
      push_cast at ha1 ha2 ⊢
      nlinarith [hb, ha2]
    · have hm'' : (j - 1 + k) % 2 = 0 := by omega
      rw [hm, hm'', ej]
      rw [hm] at ha1 ha2
      push_cast at ha1 ha2 ⊢
      nlinarith [hb, ha1]
  · rw [hcpDistSqCoeff_centeredAt]
    have h := hcp_adjacent_j i (j - 1) k
    rwa [show j - 1 + 1 = j by omega] at h

/-- Descent step: when the centered second coefficient is at most `-1` and the
centered first coefficient is in `(-1, 1)`, the index one step up in `j` is
valid, does not increase the centered norm, and sits at coefficient squared
distance exactly `4`. -/
theorem hcp_step_b_up (radius delta_r : ℚ) (i j k : ℕ)
    (hmem : (i, j, k) ∈ hcpIndices (hcpN1d radius delta_r))
    (ha1 : -1 < ((2 * i + (j + k) % 2 : ℕ) : ℚ) - hcpMean1 radius delta_r)
    (ha2 : ((2 * i + (j + k) % 2 : ℕ) : ℚ) - hcpMean1 radius delta_r < 1)
    (hb : (j : ℚ) + ((k % 2 : ℕ) : ℚ) / 3 - hcpMean2 radius delta_r ≤ -1) :
    ∃ x' ∈ hcpIndices (hcpN1d radius delta_r),
      hcpNormSqCoeff (hcpCenteredAt radius delta_r x') ≤
        hcpNormSqCoeff (hcpCenteredAt radius delta_r (i, j, k)) ∧
      hcpDistSqCoeff (hcpCenteredAt radius delta_r (i, j, k))
        (hcpCenteredAt radius delta_r x') = 4 := by
  have hm' := hmem
  simp only [mem_hcpIndices] at hm'
  obtain ⟨hi, hj, hk⟩ := hm'
  have hN : 0 < hcpN1d radius delta_r := lt_of_le_of_lt (Nat.zero_le i) hi
  have hM2 := (hcpMean2_bounds radius delta_r hN).2
  have hN0 : (0 : ℚ) ≤ ((hcpN1d radius delta_r : ℕ) : ℚ) := by positivity
  have hk0 : (0 : ℚ) ≤ ((k % 2 : ℕ) : ℚ) := by positivity
  have hlt : ((j + 1 : ℕ) : ℚ) < ((hcpN1d radius delta_r : ℕ) : ℚ) := by
    push_cast
    linarith
  have hj1 : j + 1 < hcpN1d radius delta_r := by exact_mod_cast hlt
  refine ⟨(i, j + 1, k), mem_hcpIndices.mpr ⟨hi, hj1, hk⟩, ?_, ?_⟩
  · have ej : ((j + 1 : ℕ) : ℚ) = (j : ℚ) + 1 := by push_cast; ring
    have hm2 : (j + k) % 2 = 0 ∨ (j + k) % 2 = 1 := by omega
    simp only [hcpCenteredAt_def, hcpNormSqCoeff]
    rcases hm2 with hm | hm
    · have hm'' : (j + 1 + k) % 2 = 1 := by omega
      rw [hm, hm'', ej]
      rw [hm] at ha1 ha2
      push_cast at ha1 ha2 ⊢
      nlinarith [hb, ha2]
    · have hm'' : (j + 1 + k) % 2 = 0 := by omega
      rw [hm, hm'', ej]
      rw [hm] at ha1 ha2
      push_cast at ha1 ha2 ⊢
      nlinarith [hb, ha1]
  · rw [hcpDistSqCoeff_centeredAt, hcpDistSqCoeff_comm]
    exact hcp_adjacent_j i j k

/-- Descent step: when the centered third coefficient is at least `3/2` and the
centered first and second coefficients are in `(-1, 1)`, the index one step
down in `k` is valid, does not increase the centered norm, and sits at
coefficient squared distance exactly `4`. -/
theorem hcp_step_c_down (radius delta_r : ℚ) (i j k : ℕ)
    (hmem : (i, j, k) ∈ hcpIndices (hcpN1d radius delta_r))
    (ha1 : -1 < ((2 * i + (j + k) % 2 : ℕ) : ℚ) - hcpMean1 radius delta_r)
    (ha2 : ((2 * i + (j + k) % 2 : ℕ) : ℚ) - hcpMean1 radius delta_r < 1)
    (hb1 : -1 < (j : ℚ) + ((k % 2 : ℕ) : ℚ) / 3 - hcpMean2 radius delta_r)
    (hb2 : (j : ℚ) + ((k % 2 : ℕ) : ℚ) / 3 - hcpMean2 radius delta_r < 1)
    (hc : 3 / 2 ≤ (k : ℚ) - hcpMean3 radius delta_r) :
    ∃ x' ∈ hcpIndices (hcpN1d radius delta_r),
      hcpNormSqCoeff (hcpCenteredAt radius delta_r x') ≤
        hcpNormSqCoeff (hcpCenteredAt radius delta_r (i, j, k)) ∧
      hcpDistSqCoeff (hcpCenteredAt radius delta_r (i, j, k))
        (hcpCenteredAt radius delta_r x') = 4 := by
  have hm' := hmem
  simp only [mem_hcpIndices] at hm'
  obtain ⟨hi, hj, hk⟩ := hm'
  have hN : 0 < hcpN1d radius delta_r := lt_of_le_of_lt (Nat.zero_le i) hi
  have hN1 : (1 : ℚ) ≤ ((hcpN1d radius delta_r : ℕ) : ℚ) := by exact_mod_cast hN
  have heq3 := hcpMean3_eq radius delta_r hN
  rw [heq3] at hc
  have hkpos : (0 : ℚ) < (k : ℚ) := by linarith
  have hk1 : 1 ≤ k := by
    have h : 0 < k := by exact_mod_cast hkpos
    omega
  refine ⟨(i, j, k - 1), mem_hcpIndices.mpr
    ⟨hi, hj, by show k - 1 < hcpN1d radius delta_r; omega⟩, ?_, ?_⟩
  · have ek : ((k - 1 : ℕ) : ℚ) = (k : ℚ) - 1 := by
      have h : k - 1 + 1 = k := by omega
      have h2 := congrArg (fun n : ℕ => (n : ℚ)) h
      push_cast at h2
      linarith
    have hjk2 : (j + k) % 2 = 0 ∨ (j + k) % 2 = 1 := by omega
    have hn2 : k % 2 = 0 ∨ k % 2 = 1 := by omega
    simp only [hcpCenteredAt_def, hcpNormSqCoeff]
    rw [heq3]
    rcases hjk2 with hjk | hjk <;> rcases hn2 with hn | hn
    · have hm1 : (j + (k - 1)) % 2 = 1 := by omega
      have hm2 : (k - 1) % 2 = 1 := by omega
      rw [hjk, hn, hm1, hm2, ek]
      rw [hjk] at ha1 ha2
      rw [hn] at hb1 hb2
      push_cast at ha1 ha2 hb1 hb2 ⊢
      rw [← sub_nonpos]
      ring_nf
      linarith [ha2, hb2, hc]
    · have hm1 : (j + (k - 1)) % 2 = 1 := by omega
      have hm2 : (k - 1) % 2 = 0 := by omega
      rw [hjk, hn, hm1, hm2, ek]
      rw [hjk] at ha1 ha2
      rw [hn] at hb1 hb2
      push_cast at ha1 ha2 hb1 hb2 ⊢
      rw [← sub_nonpos]
      ring_nf
      linarith [ha2, hb1, hc]
    · have hm1 : (j + (k - 1)) % 2 = 0 := by omega
      have hm2 : (k - 1) % 2 = 1 := by omega
      rw [hjk, hn, hm1, hm2, ek]
      rw [hjk] at ha1 ha2
      rw [hn] at hb1 hb2
      push_cast at ha1 ha2 hb1 hb2 ⊢
      rw [← sub_nonpos]
      ring_nf
      linarith [ha1, hb2, hc]
    · have hm1 : (j + (k - 1)) % 2 = 0 := by omega
      have hm2 : (k - 1) % 2 = 0 := by omega
      rw [hjk, hn, hm1, hm2, ek]
      rw [hjk] at ha1 ha2
      rw [hn] at hb1 hb2
      push_cast at ha1 ha2 hb1 hb2 ⊢
      rw [← sub_nonpos]
      ring_nf
      linarith [ha1, hb1, hc]
  · rw [hcpDistSqCoeff_centeredAt]
    have h := hcp_adjacent_k i j (k - 1)
    rwa [show k - 1 + 1 = k by omega] at h

/-- Descent step: when the centered third coefficient is at most `-3/2` and the
centered first and second coefficients are in `(-1, 1)`, the index one step up
in `k` is valid, does not increase the centered norm, and sits at coefficient
squared distance exactly `4`. -/
theorem hcp_step_c_up (radius delta_r : ℚ) (i j k : ℕ)
    (hmem : (i, j, k) ∈ hcpIndices (hcpN1d radius delta_r))
    (ha1 : -1 < ((2 * i + (j + k) % 2 : ℕ) : ℚ) - hcpMean1 radius delta_r)
    (ha2 : ((2 * i + (j + k) % 2 : ℕ) : ℚ) - hcpMean1 radius delta_r < 1)
    (hb1 : -1 < (j : ℚ) + ((k % 2 : ℕ) : ℚ) / 3 - hcpMean2 radius delta_r)
    (hb2 : (j : ℚ) + ((k % 2 : ℕ) : ℚ) / 3 - hcpMean2 radius delta_r < 1)
    (hc : (k : ℚ) - hcpMean3 radius delta_r ≤ -(3 / 2)) :
    ∃ x' ∈ hcpIndices (hcpN1d radius delta_r),
      hcpNormSqCoeff (hcpCenteredAt radius delta_r x') ≤
        hcpNormSqCoeff (hcpCenteredAt radius delta_r (i, j, k)) ∧
      hcpDistSqCoeff (hcpCenteredAt radius delta_r (i, j, k))
        (hcpCenteredAt radius delta_r x') = 4 := by
  have hm' := hmem
  simp only [mem_hcpIndices] at hm'
  obtain ⟨hi, hj, hk⟩ := hm'
  have hN : 0 < hcpN1d radius delta_r := lt_of_le_of_lt (Nat.zero_le i) hi
  have hN0 : (0 : ℚ) ≤ ((hcpN1d radius delta_r : ℕ) : ℚ) := by positivity
  have heq3 := hcpMean3_eq radius delta_r hN
  rw [heq3] at hc
  have hlt : ((k + 1 : ℕ) : ℚ) < ((hcpN1d radius delta_r : ℕ) : ℚ) := by
    push_cast
    linarith
  have hk1 : k + 1 < hcpN1d radius delta_r := by exact_mod_cast hlt
  refine ⟨(i, j, k + 1), mem_hcpIndices.mpr ⟨hi, hj, hk1⟩, ?_, ?_⟩
  · have ek : ((k + 1 : ℕ) : ℚ) = (k : ℚ) + 1 := by push_cast; ring
    have hjk2 : (j + k) % 2 = 0 ∨ (j + k) % 2 = 1 := by omega
    have hn2 : k % 2 = 0 ∨ k % 2 = 1 := by omega
    simp only [hcpCenteredAt_def, hcpNormSqCoeff]
    rw [heq3]
    rcases hjk2 with hjk | hjk <;> rcases hn2 with hn | hn
    · have hm1 : (j + (k + 1)) % 2 = 1 := by omega
      have hm2 : (k + 1) % 2 = 1 := by omega
      rw [hjk, hn, hm1, hm2, ek]
      rw [hjk] at ha1 ha2
      rw [hn] at hb1 hb2
      push_cast at ha1 ha2 hb1 hb2 ⊢
      rw [← sub_nonpos]
      ring_nf
      linarith [ha2, hb2, hc]
    · have hm1 : (j + (k + 1)) % 2 = 1 := by omega
      have hm2 : (k + 1) % 2 = 0 := by omega
      rw [hjk, hn, hm1, hm2, ek]
      rw [hjk] at ha1 ha2
      rw [hn] at hb1 hb2
      push_cast at ha1 ha2 hb1 hb2 ⊢
      rw [← sub_nonpos]
      ring_nf
      linarith [ha2, hb1, hc]
    · have hm1 : (j + (k + 1)) % 2 = 0 := by omega
      have hm2 : (k + 1) % 2 = 1 := by omega
      rw [hjk, hn, hm1, hm2, ek]
      rw [hjk] at ha1 ha2
      rw [hn] at hb1 hb2
      push_cast at ha1 ha2 hb1 hb2 ⊢
      rw [← sub_nonpos]
      ring_nf
      linarith [ha1, hb2, hc]
    · have hm1 : (j + (k + 1)) % 2 = 0 := by omega
      have hm2 : (k + 1) % 2 = 0 := by omega
      rw [hjk, hn, hm1, hm2, ek]
      rw [hjk] at ha1 ha2
      rw [hn] at hb1 hb2
      push_cast at ha1 ha2 hb1 hb2 ⊢
      rw [← sub_nonpos]
      ring_nf
      linarith [ha1, hb1, hc]
  · rw [hcpDistSqCoeff_centeredAt, hcpDistSqCoeff_comm]
    exact hcp_adjacent_k i j k

/-- Descent step in the central cell for grids of side at least `5`: stepping
in `i` toward the centroid increases the centered norm by at most `4` and
lands at coefficient squared distance exactly `4`. -/
theorem hcp_step_core (radius delta_r : ℚ) (i j k : ℕ)
    (hmem : (i, j, k) ∈ hcpIndices (hcpN1d radius delta_r))
    (hN5 : 5 ≤ hcpN1d radius delta_r)
    (ha1 : -1 < ((2 * i + (j + k) % 2 : ℕ) : ℚ) - hcpMean1 radius delta_r)
    (ha2 : ((2 * i + (j + k) % 2 : ℕ) : ℚ) - hcpMean1 radius delta_r < 1) :
    ∃ x' ∈ hcpIndices (hcpN1d radius delta_r),
      hcpNormSqCoeff (hcpCenteredAt radius delta_r x') ≤
        hcpNormSqCoeff (hcpCenteredAt radius delta_r (i, j, k)) + 4 ∧
      hcpDistSqCoeff (hcpCenteredAt radius delta_r (i, j, k))
        (hcpCenteredAt radius delta_r x') = 4 := by
  have hm' := hmem
  simp only [mem_hcpIndices] at hm'
  obtain ⟨hi, hj, hk⟩ := hm'
  have hN : 0 < hcpN1d radius delta_r := lt_of_le_of_lt (Nat.zero_le i) hi
  rcases le_or_lt 0 (((2 * i + (j + k) % 2 : ℕ) : ℚ) - hcpMean1 radius delta_r)
    with hs | hs
  · have hM1 := (hcpMean1_bounds radius delta_r hN).1
    have hgt : ((hcpN1d radius delta_r : ℕ) : ℚ) <
        ((2 * i + (j + k) % 2 + 2 : ℕ) : ℚ) := by
      push_cast at ha1 ⊢
      linarith
    have hgt2 : hcpN1d radius delta_r < 2 * i + (j + k) % 2 + 2 := by
      exact_mod_cast hgt
    have hi1 : 1 ≤ i := by omega
    refine ⟨(i - 1, j, k), mem_hcpIndices.mpr
      ⟨by show i - 1 < hcpN1d radius delta_r; omega, hj, hk⟩, ?_, ?_⟩
    · have e1 : ((2 * (i - 1) + (j + k) % 2 : ℕ) : ℚ) =
          ((2 * i + (j + k) % 2 : ℕ) : ℚ) - 2 := by
        have h : 2 * (i - 1) + (j + k) % 2 + 2 = 2 * i + (j + k) % 2 := by omega
        have h2 := congrArg (fun n : ℕ => (n : ℚ)) h
        push_cast at h2
        push_cast
        linarith
      simp only [hcpCenteredAt_def, hcpNormSqCoeff]
      rw [e1]
      nlinarith [hs]
    · rw [hcpDistSqCoeff_centeredAt]
      have h := hcp_adjacent_i (i - 1) j k
      rwa [show i - 1 + 1 = i by omega] at h
  · have hM1 := (hcpMean1_bounds radius delta_r hN).2
    have hlt : ((2 * i + (j + k) % 2 : ℕ) : ℚ) <
        ((hcpN1d radius delta_r : ℕ) : ℚ) + 1 := by
      push_cast at ha2 ⊢
      linarith
    have hlt2 : 2 * i + (j + k) % 2 < hcpN1d radius delta_r + 1 := by
      exact_mod_cast hlt
    refine ⟨(i + 1, j, k), mem_hcpIndices.mpr
      ⟨by show i + 1 < hcpN1d radius delta_r; omega, hj, hk⟩, ?_, ?_⟩
    · have e1 : ((2 * (i + 1) + (j + k) % 2 : ℕ) : ℚ) =
          ((2 * i + (j + k) % 2 : ℕ) : ℚ) + 2 := by
        push_cast
        ring
      simp only [hcpCenteredAt_def, hcpNormSqCoeff]
      rw [e1]
      nlinarith [hs]
    · rw [hcpDistSqCoeff_centeredAt, hcpDistSqCoeff_comm]
      exact hcp_adjacent_i i j k


/-- In the `2x2x2` grid every index has another index whose centered
norm is at most the larger of its own centered norm and `5 / 4`, at
coefficient squared distance exactly `4`. -/
theorem hcp2_neighbor (radius delta_r : ℚ)
    (h1 : hcpMean1 radius delta_r = 3 / 2) (h2 : hcpMean2 radius delta_r = 2 / 3)
    (h3 : hcpMean3 radius delta_r = 1 / 2) :
    ∀ x ∈ hcpIndices 2, ∃ x' ∈ hcpIndices 2,
      hcpNormSqCoeff (hcpCenteredAt radius delta_r x') ≤
        max (hcpNormSqCoeff (hcpCenteredAt radius delta_r x)) (5 / 4) ∧
      hcpDistSqCoeff (hcpCenteredAt radius delta_r x)
        (hcpCenteredAt radius delta_r x') = 4 := by
  intro x hx
  obtain ⟨i, j, k⟩ := x
  simp only [mem_hcpIndices] at hx
  obtain ⟨hi, hj, hk⟩ := hx
  interval_cases i <;> interval_cases j <;> interval_cases k
  · exact ⟨(0, 0, 1), by simp [mem_hcpIndices],
      by norm_num [hcpCenteredAt_def, hcpNormSqCoeff, h1, h2, h3, le_max_iff,
        -Prod.mk_zero_zero, -Prod.mk_one_one],
      by norm_num [hcpCenteredAt_def, hcpDistSqCoeff, h1, h2, h3,
        -Prod.mk_zero_zero, -Prod.mk_one_one]⟩
  · exact ⟨(0, 1, 0), by simp [mem_hcpIndices],
      by norm_num [hcpCenteredAt_def, hcpNormSqCoeff, h1, h2, h3, le_max_iff,
        -Prod.mk_zero_zero, -Prod.mk_one_one],
      by norm_num [hcpCenteredAt_def, hcpDistSqCoeff, h1, h2, h3,
        -Prod.mk_zero_zero, -Prod.mk_one_one]⟩
  · exact ⟨(0, 0, 1), by simp [mem_hcpIndices],
      by norm_num [hcpCenteredAt_def, hcpNormSqCoeff, h1, h2, h3, le_max_iff,
        -Prod.mk_zero_zero, -Prod.mk_one_one],
      by norm_num [hcpCenteredAt_def, hcpDistSqCoeff, h1, h2, h3,
        -Prod.mk_zero_zero, -Prod.mk_one_one]⟩
  · exact ⟨(0, 0, 1), by simp [mem_hcpIndices],
      by norm_num [hcpCenteredAt_def, hcpNormSqCoeff, h1, h2, h3, le_max_iff,
        -Prod.mk_zero_zero, -Prod.mk_one_one],
      by norm_num [hcpCenteredAt_def, hcpDistSqCoeff, h1, h2, h3,
        -Prod.mk_zero_zero, -Prod.mk_one_one]⟩
  · exact ⟨(0, 0, 1), by simp [mem_hcpIndices],
      by norm_num [hcpCenteredAt_def, hcpNormSqCoeff, h1, h2, h3, le_max_iff,
        -Prod.mk_zero_zero, -Prod.mk_one_one],
      by norm_num [hcpCenteredAt_def, hcpDistSqCoeff, h1, h2, h3,
        -Prod.mk_zero_zero, -Prod.mk_one_one]⟩
  · exact ⟨(0, 0, 1), by simp [mem_hcpIndices],
      by norm_num [hcpCenteredAt_def, hcpNormSqCoeff, h1, h2, h3, le_max_iff,
        -Prod.mk_zero_zero, -Prod.mk_one_one],
      by norm_num [hcpCenteredAt_def, hcpDistSqCoeff, h1, h2, h3,
        -Prod.mk_zero_zero, -Prod.mk_one_one]⟩
  · exact ⟨(0, 1, 0), by simp [mem_hcpIndices],
      by norm_num [hcpCenteredAt_def, hcpNormSqCoeff, h1, h2, h3, le_max_iff,
        -Prod.mk_zero_zero, -Prod.mk_one_one],
      by norm_num [hcpCenteredAt_def, hcpDistSqCoeff, h1, h2, h3,
        -Prod.mk_zero_zero, -Prod.mk_one_one]⟩
  · exact ⟨(0, 0, 1), by simp [mem_hcpIndices],
      by norm_num [hcpCenteredAt_def, hcpNormSqCoeff, h1, h2, h3, le_max_iff,
        -Prod.mk_zero_zero, -Prod.mk_one_one],
      by norm_num [hcpCenteredAt_def, hcpDistSqCoeff, h1, h2, h3,
        -Prod.mk_zero_zero, -Prod.mk_one_one]⟩

/-- In the `2x2x2` grid every centered norm is at least `5 / 4`. -/
theorem hcp2_min (radius delta_r : ℚ)
    (h1 : hcpMean1 radius delta_r = 3 / 2) (h2 : hcpMean2 radius delta_r = 2 / 3)
    (h3 : hcpMean3 radius delta_r = 1 / 2) :
    ∀ x ∈ hcpIndices 2,
      (5 / 4 : ℚ) ≤ hcpNormSqCoeff (hcpCenteredAt radius delta_r x) := by
  intro x hx
  obtain ⟨i, j, k⟩ := x
  simp only [mem_hcpIndices] at hx
  obtain ⟨hi, hj, hk⟩ := hx
  interval_cases i <;> interval_cases j <;> interval_cases k <;>
    norm_num [hcpCenteredAt_def, hcpNormSqCoeff, h1, h2, h3,
      -Prod.mk_zero_zero, -Prod.mk_one_one]

/-- In the `3x3x3` grid every index has another index whose centered
norm is at most the larger of its own centered norm and `172 / 81`, at
coefficient squared distance exactly `4`. -/
theorem hcp3_neighbor (radius delta_r : ℚ)
    (h1 : hcpMean1 radius delta_r = 22 / 9) (h2 : hcpMean2 radius delta_r = 10 / 9)
    (h3 : hcpMean3 radius delta_r = 1) :
    ∀ x ∈ hcpIndices 3, ∃ x' ∈ hcpIndices 3,
      hcpNormSqCoeff (hcpCenteredAt radius delta_r x') ≤
        max (hcpNormSqCoeff (hcpCenteredAt radius delta_r x)) (172 / 81) ∧
      hcpDistSqCoeff (hcpCenteredAt radius delta_r x)
        (hcpCenteredAt radius delta_r x') = 4 := by
  intro x hx
  obtain ⟨i, j, k⟩ := x
  simp only [mem_hcpIndices] at hx
  obtain ⟨hi, hj, hk⟩ := hx
  interval_cases i <;> interval_cases j <;> interval_cases k
  · exact ⟨(0, 0, 1), by simp [mem_hcpIndices],
      by norm_num [hcpCenteredAt_def, hcpNormSqCoeff, h1, h2, h3, le_max_iff,
        -Prod.mk_zero_zero, -Prod.mk_one_one],
      by norm_num [hcpCenteredAt_def, hcpDistSqCoeff, h1, h2, h3,
        -Prod.mk_zero_zero, -Prod.mk_one_one]⟩
  · exact ⟨(1, 1, 1), by simp [mem_hcpIndices],
      by norm_num [hcpCenteredAt_def, hcpNormSqCoeff, h1, h2, h3, le_max_iff,
        -Prod.mk_zero_zero, -Prod.mk_one_one],
      by norm_num [hcpCenteredAt_def, hcpDistSqCoeff, h1, h2, h3,
        -Prod.mk_zero_zero, -Prod.mk_one_one]⟩
  · exact ⟨(0, 0, 1), by simp [mem_hcpIndices],
      by norm_num [hcpCenteredAt_def, hcpNormSqCoeff, h1, h2, h3, le_max_iff,
        -Prod.mk_zero_zero, -Prod.mk_one_one],
      by norm_num [hcpCenteredAt_def, hcpDistSqCoeff, h1, h2, h3,
        -Prod.mk_zero_zero, -Prod.mk_one_one]⟩
  · exact ⟨(1, 1, 1), by simp [mem_hcpIndices],
      by norm_num [hcpCenteredAt_def, hcpNormSqCoeff, h1, h2, h3, le_max_iff,
        -Prod.mk_zero_zero, -Prod.mk_one_one],
      by norm_num [hcpCenteredAt_def, hcpDistSqCoeff, h1, h2, h3,
        -Prod.mk_zero_zero, -Prod.mk_one_one]⟩
  · exact ⟨(1, 1, 1), by simp [mem_hcpIndices],
      by norm_num [hcpCenteredAt_def, hcpNormSqCoeff, h1, h2, h3, le_max_iff,
        -Prod.mk_zero_zero, -Prod.mk_one_one],
      by norm_num [hcpCenteredAt_def, hcpDistSqCoeff, h1, h2, h3,
        -Prod.mk_zero_zero, -Prod.mk_one_one]⟩
  · exact ⟨(1, 1, 1), by simp [mem_hcpIndices],
      by norm_num [hcpCenteredAt_def, hcpNormSqCoeff, h1, h2, h3, le_max_iff,
        -Prod.mk_zero_zero, -Prod.mk_one_one],
      by norm_num [hcpCenteredAt_def, hcpDistSqCoeff, h1, h2, h3,
        -Prod.mk_zero_zero, -Prod.mk_one_one]⟩
  · exact ⟨(0, 1, 0), by simp [mem_hcpIndices],
      by norm_num [hcpCenteredAt_def, hcpNormSqCoeff, h1, h2, h3, le_max_iff,
        -Prod.mk_zero_zero, -Prod.mk_one_one],
      by norm_num [hcpCenteredAt_def, hcpDistSqCoeff, h1, h2, h3,
        -Prod.mk_zero_zero, -Prod.mk_one_one]⟩
  · exact ⟨(1, 1, 1), by simp [mem_hcpIndices],
      by norm_num [hcpCenteredAt_def, hcpNormSqCoeff, h1, h2, h3, le_max_iff,
        -Prod.mk_zero_zero, -Prod.mk_one_one],
      by norm_num [hcpCenteredAt_def, hcpDistSqCoeff, h1, h2, h3,
        -Prod.mk_zero_zero, -Prod.mk_one_one]⟩
  · exact ⟨(0, 1, 2), by simp [mem_hcpIndices],
      by norm_num [hcpCenteredAt_def, hcpNormSqCoeff, h1, h2, h3, le_max_iff,
        -Prod.mk_zero_zero, -Prod.mk_one_one],
      by norm_num [hcpCenteredAt_def, hcpDistSqCoeff, h1, h2, h3,
        -Prod.mk_zero_zero, -Prod.mk_one_one]⟩
  · exact ⟨(1, 0, 1), by simp [mem_hcpIndices],
      by norm_num [hcpCenteredAt_def, hcpNormSqCoeff, h1, h2, h3, le_max_iff,
        -Prod.mk_zero_zero, -Prod.mk_one_one],
      by norm_num [hcpCenteredAt_def, hcpDistSqCoeff, h1, h2, h3,
        -Prod.mk_zero_zero, -Prod.mk_one_one]⟩
  · exact ⟨(1, 1, 1), by simp [mem_hcpIndices],
      by norm_num [hcpCenteredAt_def, hcpNormSqCoeff, h1, h2, h3, le_max_iff,
        -Prod.mk_zero_zero, -Prod.mk_one_one],
      by norm_num [hcpCenteredAt_def, hcpDistSqCoeff, h1, h2, h3,
        -Prod.mk_zero_zero, -Prod.mk_one_one]⟩
  · exact ⟨(1, 0, 1), by simp [mem_hcpIndices],
      by norm_num [hcpCenteredAt_def, hcpNormSqCoeff, h1, h2, h3, le_max_iff,
        -Prod.mk_zero_zero, -Prod.mk_one_one],
      by norm_num [hcpCenteredAt_def, hcpDistSqCoeff, h1, h2, h3,
        -Prod.mk_zero_zero, -Prod.mk_one_one]⟩
  · exact ⟨(1, 1, 1), by simp [mem_hcpIndices],
      by norm_num [hcpCenteredAt_def, hcpNormSqCoeff, h1, h2, h3, le_max_iff,
        -Prod.mk_zero_zero, -Prod.mk_one_one],
      by norm_num [hcpCenteredAt_def, hcpDistSqCoeff, h1, h2, h3,
        -Prod.mk_zero_zero, -Prod.mk_one_one]⟩
  · exact ⟨(1, 0, 1), by simp [mem_hcpIndices],
      by norm_num [hcpCenteredAt_def, hcpNormSqCoeff, h1, h2, h3, le_max_iff,
        -Prod.mk_zero_zero, -Prod.mk_one_one],
      by norm_num [hcpCenteredAt_def, hcpDistSqCoeff, h1, h2, h3,
        -Prod.mk_zero_zero, -Prod.mk_one_one]⟩
  · exact ⟨(1, 1, 1), by simp [mem_hcpIndices],
      by norm_num [hcpCenteredAt_def, hcpNormSqCoeff, h1, h2, h3, le_max_iff,
        -Prod.mk_zero_zero, -Prod.mk_one_one],
      by norm_num [hcpCenteredAt_def, hcpDistSqCoeff, h1, h2, h3,
        -Prod.mk_zero_zero, -Prod.mk_one_one]⟩
  · exact ⟨(1, 1, 1), by simp [mem_hcpIndices],
      by norm_num [hcpCenteredAt_def, hcpNormSqCoeff, h1, h2, h3, le_max_iff,
        -Prod.mk_zero_zero, -Prod.mk_one_one],
      by norm_num [hcpCenteredAt_def, hcpDistSqCoeff, h1, h2, h3,
        -Prod.mk_zero_zero, -Prod.mk_one_one]⟩
  · exact ⟨(1, 1, 1), by simp [mem_hcpIndices],
      by norm_num [hcpCenteredAt_def, hcpNormSqCoeff, h1, h2, h3, le_max_iff,
        -Prod.mk_zero_zero, -Prod.mk_one_one],
      by norm_num [hcpCenteredAt_def, hcpDistSqCoeff, h1, h2, h3,
        -Prod.mk_zero_zero, -Prod.mk_one_one]⟩
  · exact ⟨(1, 1, 1), by simp [mem_hcpIndices],
      by norm_num [hcpCenteredAt_def, hcpNormSqCoeff, h1, h2, h3, le_max_iff,
        -Prod.mk_zero_zero, -Prod.mk_one_one],
      by norm_num [hcpCenteredAt_def, hcpDistSqCoeff, h1, h2, h3,
        -Prod.mk_zero_zero, -Prod.mk_one_one]⟩
  · exact ⟨(1, 0, 1), by simp [mem_hcpIndices],
      by norm_num [hcpCenteredAt_def, hcpNormSqCoeff, h1, h2, h3, le_max_iff,
        -Prod.mk_zero_zero, -Prod.mk_one_one],
      by norm_num [hcpCenteredAt_def, hcpDistSqCoeff, h1, h2, h3,
        -Prod.mk_zero_zero, -Prod.mk_one_one]⟩
  · exact ⟨(1, 0, 1), by simp [mem_hcpIndices],
      by norm_num [hcpCenteredAt_def, hcpNormSqCoeff, h1, h2, h3, le_max_iff,
        -Prod.mk_zero_zero, -Prod.mk_one_one],
      by norm_num [hcpCenteredAt_def, hcpDistSqCoeff, h1, h2, h3,
        -Prod.mk_zero_zero, -Prod.mk_one_one]⟩
  · exact ⟨(1, 0, 1), by simp [mem_hcpIndices],
      by norm_num [hcpCenteredAt_def, hcpNormSqCoeff, h1, h2, h3, le_max_iff,
        -Prod.mk_zero_zero, -Prod.mk_one_one],
      by norm_num [hcpCenteredAt_def, hcpDistSqCoeff, h1, h2, h3,
        -Prod.mk_zero_zero, -Prod.mk_one_one]⟩
  · exact ⟨(2, 1, 1), by simp [mem_hcpIndices],
      by norm_num [hcpCenteredAt_def, hcpNormSqCoeff, h1, h2, h3, le_max_iff,
        -Prod.mk_zero_zero, -Prod.mk_one_one],
      by norm_num [hcpCenteredAt_def, hcpDistSqCoeff, h1, h2, h3,
        -Prod.mk_zero_zero, -Prod.mk_one_one]⟩
  · exact ⟨(1, 1, 1), by simp [mem_hcpIndices],
      by norm_num [hcpCenteredAt_def, hcpNormSqCoeff, h1, h2, h3, le_max_iff,
        -Prod.mk_zero_zero, -Prod.mk_one_one],
      by norm_num [hcpCenteredAt_def, hcpDistSqCoeff, h1, h2, h3,
        -Prod.mk_zero_zero, -Prod.mk_one_one]⟩
  · exact ⟨(2, 1, 1), by simp [mem_hcpIndices],
      by norm_num [hcpCenteredAt_def, hcpNormSqCoeff, h1, h2, h3, le_max_iff,
        -Prod.mk_zero_zero, -Prod.mk_one_one],
      by norm_num [hcpCenteredAt_def, hcpDistSqCoeff, h1, h2, h3,
        -Prod.mk_zero_zero, -Prod.mk_one_one]⟩
  · exact ⟨(2, 1, 1), by simp [mem_hcpIndices],
      by norm_num [hcpCenteredAt_def, hcpNormSqCoeff, h1, h2, h3, le_max_iff,
        -Prod.mk_zero_zero, -Prod.mk_one_one],
      by norm_num [hcpCenteredAt_def, hcpDistSqCoeff, h1, h2, h3,
        -Prod.mk_zero_zero, -Prod.mk_one_one]⟩
  · exact ⟨(2, 1, 1), by simp [mem_hcpIndices],
      by norm_num [hcpCenteredAt_def, hcpNormSqCoeff, h1, h2, h3, le_max_iff,
        -Prod.mk_zero_zero, -Prod.mk_one_one],
      by norm_num [hcpCenteredAt_def, hcpDistSqCoeff, h1, h2, h3,
        -Prod.mk_zero_zero, -Prod.mk_one_one]⟩
  · exact ⟨(2, 1, 1), by simp [mem_hcpIndices],
      by norm_num [hcpCenteredAt_def, hcpNormSqCoeff, h1, h2, h3, le_max_iff,
        -Prod.mk_zero_zero, -Prod.mk_one_one],
      by norm_num [hcpCenteredAt_def, hcpDistSqCoeff, h1, h2, h3,
        -Prod.mk_zero_zero, -Prod.mk_one_one]⟩

/-- In the `3x3x3` grid every centered norm except the central index's is at
least `172 / 81`. -/
theorem hcp3_min (radius delta_r : ℚ)
    (h1 : hcpMean1 radius delta_r = 22 / 9) (h2 : hcpMean2 radius delta_r = 10 / 9)
    (h3 : hcpMean3 radius delta_r = 1) :
    ∀ x ∈ hcpIndices 3, x ≠ (1, 1, 1) →
      (172 / 81 : ℚ) ≤ hcpNormSqCoeff (hcpCenteredAt radius delta_r x) := by
  intro x hx hne
  obtain ⟨i, j, k⟩ := x
  simp only [mem_hcpIndices] at hx
  obtain ⟨hi, hj, hk⟩ := hx
  interval_cases i <;> interval_cases j <;> interval_cases k <;>
    first
    | exact absurd rfl hne
    | norm_num [hcpCenteredAt_def, hcpNormSqCoeff, h1, h2, h3,
        -Prod.mk_zero_zero, -Prod.mk_one_one]

set_option maxHeartbeats 1600000 in
/-- In the `4x4x4` grid every index has another index whose centered
norm is at most the larger of its own centered norm and `5 / 4`, at
coefficient squared distance exactly `4`. -/
theorem hcp4_neighbor (radius delta_r : ℚ)
    (h1 : hcpMean1 radius delta_r = 7 / 2) (h2 : hcpMean2 radius delta_r = 5 / 3)
    (h3 : hcpMean3 radius delta_r = 3 / 2) :
    ∀ x ∈ hcpIndices 4, ∃ x' ∈ hcpIndices 4,
      hcpNormSqCoeff (hcpCenteredAt radius delta_r x') ≤
        max (hcpNormSqCoeff (hcpCenteredAt radius delta_r x)) (5 / 4) ∧
      hcpDistSqCoeff (hcpCenteredAt radius delta_r x)
        (hcpCenteredAt radius delta_r x') = 4 := by
  intro x hx
  obtain ⟨i, j, k⟩ := x
  simp only [mem_hcpIndices] at hx
  obtain ⟨hi, hj, hk⟩ := hx
  interval_cases i <;> interval_cases j <;> interval_cases k
  · exact ⟨(0, 0, 1), by simp [mem_hcpIndices],
      by norm_num [hcpCenteredAt_def, hcpNormSqCoeff, h1, h2, h3, le_max_iff,
        -Prod.mk_zero_zero, -Prod.mk_one_one],
      by norm_num [hcpCenteredAt_def, hcpDistSqCoeff, h1, h2, h3,
        -Prod.mk_zero_zero, -Prod.mk_one_one]⟩
  · exact ⟨(1, 1, 1), by simp [mem_hcpIndices],
      by norm_num [hcpCenteredAt_def, hcpNormSqCoeff, h1, h2, h3, le_max_iff,
        -Prod.mk_zero_zero, -Prod.mk_one_one],
      by norm_num [hcpCenteredAt_def, hcpDistSqCoeff, h1, h2, h3,
        -Prod.mk_zero_zero, -Prod.mk_one_one]⟩
  · exact ⟨(0, 1, 2), by simp [mem_hcpIndices],
      by norm_num [hcpCenteredAt_def, hcpNormSqCoeff, h1, h2, h3, le_max_iff,
        -Prod.mk_zero_zero, -Prod.mk_one_one],
      by norm_num [hcpCenteredAt_def, hcpDistSqCoeff, h1, h2, h3,
        -Prod.mk_zero_zero, -Prod.mk_one_one]⟩
  · exact ⟨(0, 1, 2), by simp [mem_hcpIndices],
      by norm_num [hcpCenteredAt_def, hcpNormSqCoeff, h1, h2, h3, le_max_iff,
        -Prod.mk_zero_zero, -Prod.mk_one_one],
      by norm_num [hcpCenteredAt_def, hcpDistSqCoeff, h1, h2, h3,
        -Prod.mk_zero_zero, -Prod.mk_one_one]⟩
  · exact ⟨(1, 1, 1), by simp [mem_hcpIndices],
      by norm_num [hcpCenteredAt_def, hcpNormSqCoeff, h1, h2, h3, le_max_iff,
        -Prod.mk_zero_zero, -Prod.mk_one_one],
      by norm_num [hcpCenteredAt_def, hcpDistSqCoeff, h1, h2, h3,
        -Prod.mk_zero_zero, -Prod.mk_one_one]⟩
  · exact ⟨(1, 1, 1), by simp [mem_hcpIndices],
      by norm_num [hcpCenteredAt_def, hcpNormSqCoeff, h1, h2, h3, le_max_iff,
        -Prod.mk_zero_zero, -Prod.mk_one_one],
      by norm_num [hcpCenteredAt_def, hcpDistSqCoeff, h1, h2, h3,
        -Prod.mk_zero_zero, -Prod.mk_one_one]⟩
  · exact ⟨(1, 1, 2), by simp [mem_hcpIndices],
      by norm_num [hcpCenteredAt_def, hcpNormSqCoeff, h1, h2, h3, le_max_iff,
        -Prod.mk_zero_zero, -Prod.mk_one_one],
      by norm_num [hcpCenteredAt_def, hcpDistSqCoeff, h1, h2, h3,
        -Prod.mk_zero_zero, -Prod.mk_one_one]⟩
  · exact ⟨(0, 1, 2), by simp [mem_hcpIndices],
      by norm_num [hcpCenteredAt_def, hcpNormSqCoeff, h1, h2, h3, le_max_iff,
        -Prod.mk_zero_zero, -Prod.mk_one_one],
      by norm_num [hcpCenteredAt_def, hcpDistSqCoeff, h1, h2, h3,
        -Prod.mk_zero_zero, -Prod.mk_one_one]⟩
  · exact ⟨(0, 2, 1), by simp [mem_hcpIndices],
      by norm_num [hcpCenteredAt_def, hcpNormSqCoeff, h1, h2, h3, le_max_iff,
        -Prod.mk_zero_zero, -Prod.mk_one_one],
      by norm_num [hcpCenteredAt_def, hcpDistSqCoeff, h1, h2, h3,
        -Prod.mk_zero_zero, -Prod.mk_one_one]⟩
  · exact ⟨(1, 2, 1), by simp [mem_hcpIndices],
      by norm_num [hcpCenteredAt_def, hcpNormSqCoeff, h1, h2, h3, le_max_iff,
        -Prod.mk_zero_zero, -Prod.mk_one_one],
      by norm_num [hcpCenteredAt_def, hcpDistSqCoeff, h1, h2, h3,
        -Prod.mk_zero_zero, -Prod.mk_one_one]⟩
  · exact ⟨(1, 2, 2), by simp [mem_hcpIndices],
      by norm_num [hcpCenteredAt_def, hcpNormSqCoeff, h1, h2, h3, le_max_iff,
        -Prod.mk_zero_zero, -Prod.mk_one_one],
      by norm_num [hcpCenteredAt_def, hcpDistSqCoeff, h1, h2, h3,
        -Prod.mk_zero_zero, -Prod.mk_one_one]⟩
  · exact ⟨(1, 2, 2), by simp [mem_hcpIndices],
      by norm_num [hcpCenteredAt_def, hcpNormSqCoeff, h1, h2, h3, le_max_iff,
        -Prod.mk_zero_zero, -Prod.mk_one_one],
      by norm_num [hcpCenteredAt_def, hcpDistSqCoeff, h1, h2, h3,
        -Prod.mk_zero_zero, -Prod.mk_one_one]⟩
  · exact ⟨(0, 2, 1), by simp [mem_hcpIndices],
      by norm_num [hcpCenteredAt_def, hcpNormSqCoeff, h1, h2, h3, le_max_iff,
        -Prod.mk_zero_zero, -Prod.mk_one_one],
      by norm_num [hcpCenteredAt_def, hcpDistSqCoeff, h1, h2, h3,
        -Prod.mk_zero_zero, -Prod.mk_one_one]⟩
  · exact ⟨(0, 2, 1), by simp [mem_hcpIndices],
      by norm_num [hcpCenteredAt_def, hcpNormSqCoeff, h1, h2, h3, le_max_iff,
        -Prod.mk_zero_zero, -Prod.mk_one_one],
      by norm_num [hcpCenteredAt_def, hcpDistSqCoeff, h1, h2, h3,
        -Prod.mk_zero_zero, -Prod.mk_one_one]⟩
  · exact ⟨(1, 2, 2), by simp [mem_hcpIndices],
      by norm_num [hcpCenteredAt_def, hcpNormSqCoeff, h1, h2, h3, le_max_iff,
        -Prod.mk_zero_zero, -Prod.mk_one_one],
      by norm_num [hcpCenteredAt_def, hcpDistSqCoeff, h1, h2, h3,
        -Prod.mk_zero_zero, -Prod.mk_one_one]⟩
  · exact ⟨(0, 3, 2), by simp [mem_hcpIndices],
      by norm_num [hcpCenteredAt_def, hcpNormSqCoeff, h1, h2, h3, le_max_iff,
        -Prod.mk_zero_zero, -Prod.mk_one_one],
      by norm_num [hcpCenteredAt_def, hcpDistSqCoeff, h1, h2, h3,
        -Prod.mk_zero_zero, -Prod.mk_one_one]⟩
  · exact ⟨(1, 0, 1), by simp [mem_hcpIndices],
      by norm_num [hcpCenteredAt_def, hcpNormSqCoeff, h1, h2, h3, le_max_iff,
        -Prod.mk_zero_zero, -Prod.mk_one_one],
      by norm_num [hcpCenteredAt_def, hcpDistSqCoeff, h1, h2, h3,
        -Prod.mk_zero_zero, -Prod.mk_one_one]⟩
  · exact ⟨(2, 1, 1), by simp [mem_hcpIndices],
      by norm_num [hcpCenteredAt_def, hcpNormSqCoeff, h1, h2, h3, le_max_iff,
        -Prod.mk_zero_zero, -Prod.mk_one_one],
      by norm_num [hcpCenteredAt_def, hcpDistSqCoeff, h1, h2, h3,
        -Prod.mk_zero_zero, -Prod.mk_one_one]⟩
  · exact ⟨(1, 1, 2), by simp [mem_hcpIndices],
      by norm_num [hcpCenteredAt_def, hcpNormSqCoeff, h1, h2, h3, le_max_iff,
        -Prod.mk_zero_zero, -Prod.mk_one_one],
      by norm_num [hcpCenteredAt_def, hcpDistSqCoeff, h1, h2, h3,
        -Prod.mk_zero_zero, -Prod.mk_one_one]⟩
  · exact ⟨(1, 1, 2), by simp [mem_hcpIndices],
      by norm_num [hcpCenteredAt_def, hcpNormSqCoeff, h1, h2, h3, le_max_iff,
        -Prod.mk_zero_zero, -Prod.mk_one_one],
      by norm_num [hcpCenteredAt_def, hcpDistSqCoeff, h1, h2, h3,
        -Prod.mk_zero_zero, -Prod.mk_one_one]⟩
  · exact ⟨(2, 1, 1), by simp [mem_hcpIndices],
      by norm_num [hcpCenteredAt_def, hcpNormSqCoeff, h1, h2, h3, le_max_iff,
        -Prod.mk_zero_zero, -Prod.mk_one_one],
      by norm_num [hcpCenteredAt_def, hcpDistSqCoeff, h1, h2, h3,
        -Prod.mk_zero_zero, -Prod.mk_one_one]⟩
  · exact ⟨(2, 1, 1), by simp [mem_hcpIndices],
      by norm_num [hcpCenteredAt_def, hcpNormSqCoeff, h1, h2, h3, le_max_iff,
        -Prod.mk_zero_zero, -Prod.mk_one_one],
      by norm_num [hcpCenteredAt_def, hcpDistSqCoeff, h1, h2, h3,
        -Prod.mk_zero_zero, -Prod.mk_one_one]⟩
  · exact ⟨(2, 1, 1), by simp [mem_hcpIndices],
      by norm_num [hcpCenteredAt_def, hcpNormSqCoeff, h1, h2, h3, le_max_iff,
        -Prod.mk_zero_zero, -Prod.mk_one_one],
      by norm_num [hcpCenteredAt_def, hcpDistSqCoeff, h1, h2, h3,
        -Prod.mk_zero_zero, -Prod.mk_one_one]⟩
  · exact ⟨(1, 1, 2), by simp [mem_hcpIndices],
      by norm_num [hcpCenteredAt_def, hcpNormSqCoeff, h1, h2, h3, le_max_iff,
        -Prod.mk_zero_zero, -Prod.mk_one_one],
      by norm_num [hcpCenteredAt_def, hcpDistSqCoeff, h1, h2, h3,
        -Prod.mk_zero_zero, -Prod.mk_one_one]⟩
  · exact ⟨(1, 2, 1), by simp [mem_hcpIndices],
      by norm_num [hcpCenteredAt_def, hcpNormSqCoeff, h1, h2, h3, le_max_iff,
        -Prod.mk_zero_zero, -Prod.mk_one_one],
      by norm_num [hcpCenteredAt_def, hcpDistSqCoeff, h1, h2, h3,
        -Prod.mk_zero_zero, -Prod.mk_one_one]⟩
  · exact ⟨(2, 1, 1), by simp [mem_hcpIndices],
      by norm_num [hcpCenteredAt_def, hcpNormSqCoeff, h1, h2, h3, le_max_iff,
        -Prod.mk_zero_zero, -Prod.mk_one_one],
      by norm_num [hcpCenteredAt_def, hcpDistSqCoeff, h1, h2, h3,
        -Prod.mk_zero_zero, -Prod.mk_one_one]⟩
  · exact ⟨(2, 2, 2), by simp [mem_hcpIndices],
      by norm_num [hcpCenteredAt_def, hcpNormSqCoeff, h1, h2, h3, le_max_iff,
        -Prod.mk_zero_zero, -Prod.mk_one_one],
      by norm_num [hcpCenteredAt_def, hcpDistSqCoeff, h1, h2, h3,
        -Prod.mk_zero_zero, -Prod.mk_one_one]⟩
  · exact ⟨(2, 2, 2), by simp [mem_hcpIndices],
      by norm_num [hcpCenteredAt_def, hcpNormSqCoeff, h1, h2, h3, le_max_iff,
        -Prod.mk_zero_zero, -Prod.mk_one_one],
      by norm_num [hcpCenteredAt_def, hcpDistSqCoeff, h1, h2, h3,
        -Prod.mk_zero_zero, -Prod.mk_one_one]⟩
  · exact ⟨(1, 2, 1), by simp [mem_hcpIndices],
      by norm_num [hcpCenteredAt_def, hcpNormSqCoeff, h1, h2, h3, le_max_iff,
        -Prod.mk_zero_zero, -Prod.mk_one_one],
      by norm_num [hcpCenteredAt_def, hcpDistSqCoeff, h1, h2, h3,
        -Prod.mk_zero_zero, -Prod.mk_one_one]⟩
  · exact ⟨(1, 2, 1), by simp [mem_hcpIndices],
      by norm_num [hcpCenteredAt_def, hcpNormSqCoeff, h1, h2, h3, le_max_iff,
        -Prod.mk_zero_zero, -Prod.mk_one_one],
      by norm_num [hcpCenteredAt_def, hcpDistSqCoeff, h1, h2, h3,
        -Prod.mk_zero_zero, -Prod.mk_one_one]⟩
  · exact ⟨(2, 2, 2), by simp [mem_hcpIndices],
      by norm_num [hcpCenteredAt_def, hcpNormSqCoeff, h1, h2, h3, le_max_iff,
        -Prod.mk_zero_zero, -Prod.mk_one_one],
      by norm_num [hcpCenteredAt_def, hcpDistSqCoeff, h1, h2, h3,
        -Prod.mk_zero_zero, -Prod.mk_one_one]⟩
  · exact ⟨(1, 3, 2), by simp [mem_hcpIndices],
      by norm_num [hcpCenteredAt_def, hcpNormSqCoeff, h1, h2, h3, le_max_iff,
        -Prod.mk_zero_zero, -Prod.mk_one_one],
      by norm_num [hcpCenteredAt_def, hcpDistSqCoeff, h1, h2, h3,
        -Prod.mk_zero_zero, -Prod.mk_one_one]⟩
  · exact ⟨(1, 0, 1), by simp [mem_hcpIndices],
      by norm_num [hcpCenteredAt_def, hcpNormSqCoeff, h1, h2, h3, le_max_iff,
        -Prod.mk_zero_zero, -Prod.mk_one_one],
      by norm_num [hcpCenteredAt_def, hcpDistSqCoeff, h1, h2, h3,
        -Prod.mk_zero_zero, -Prod.mk_one_one]⟩
  · exact ⟨(2, 1, 1), by simp [mem_hcpIndices],
      by norm_num [hcpCenteredAt_def, hcpNormSqCoeff, h1, h2, h3, le_max_iff,
        -Prod.mk_zero_zero, -Prod.mk_one_one],
      by norm_num [hcpCenteredAt_def, hcpDistSqCoeff, h1, h2, h3,
        -Prod.mk_zero_zero, -Prod.mk_one_one]⟩
  · exact ⟨(1, 1, 2), by simp [mem_hcpIndices],
      by norm_num [hcpCenteredAt_def, hcpNormSqCoeff, h1, h2, h3, le_max_iff,
        -Prod.mk_zero_zero, -Prod.mk_one_one],
      by norm_num [hcpCenteredAt_def, hcpDistSqCoeff, h1, h2, h3,
        -Prod.mk_zero_zero, -Prod.mk_one_one]⟩
  · exact ⟨(2, 1, 2), by simp [mem_hcpIndices],
      by norm_num [hcpCenteredAt_def, hcpNormSqCoeff, h1, h2, h3, le_max_iff,
        -Prod.mk_zero_zero, -Prod.mk_one_one],
      by norm_num [hcpCenteredAt_def, hcpDistSqCoeff, h1, h2, h3,
        -Prod.mk_zero_zero, -Prod.mk_one_one]⟩
  · exact ⟨(2, 1, 1), by simp [mem_hcpIndices],
      by norm_num [hcpCenteredAt_def, hcpNormSqCoeff, h1, h2, h3, le_max_iff,
        -Prod.mk_zero_zero, -Prod.mk_one_one],
      by norm_num [hcpCenteredAt_def, hcpDistSqCoeff, h1, h2, h3,
        -Prod.mk_zero_zero, -Prod.mk_one_one]⟩
  · exact ⟨(2, 2, 2), by simp [mem_hcpIndices],
      by norm_num [hcpCenteredAt_def, hcpNormSqCoeff, h1, h2, h3, le_max_iff,
        -Prod.mk_zero_zero, -Prod.mk_one_one],
      by norm_num [hcpCenteredAt_def, hcpDistSqCoeff, h1, h2, h3,
        -Prod.mk_zero_zero, -Prod.mk_one_one]⟩
  · exact ⟨(2, 1, 1), by simp [mem_hcpIndices],
      by norm_num [hcpCenteredAt_def, hcpNormSqCoeff, h1, h2, h3, le_max_iff,
        -Prod.mk_zero_zero, -Prod.mk_one_one],
      by norm_num [hcpCenteredAt_def, hcpDistSqCoeff, h1, h2, h3,
        -Prod.mk_zero_zero, -Prod.mk_one_one]⟩
  · exact ⟨(2, 2, 2), by simp [mem_hcpIndices],
      by norm_num [hcpCenteredAt_def, hcpNormSqCoeff, h1, h2, h3, le_max_iff,
        -Prod.mk_zero_zero, -Prod.mk_one_one],
      by norm_num [hcpCenteredAt_def, hcpDistSqCoeff, h1, h2, h3,
        -Prod.mk_zero_zero, -Prod.mk_one_one]⟩
  · exact ⟨(2, 1, 1), by simp [mem_hcpIndices],
      by norm_num [hcpCenteredAt_def, hcpNormSqCoeff, h1, h2, h3, le_max_iff,
        -Prod.mk_zero_zero, -Prod.mk_one_one],
      by norm_num [hcpCenteredAt_def, hcpDistSqCoeff, h1, h2, h3,
        -Prod.mk_zero_zero, -Prod.mk_one_one]⟩
  · exact ⟨(2, 1, 1), by simp [mem_hcpIndices],
      by norm_num [hcpCenteredAt_def, hcpNormSqCoeff, h1, h2, h3, le_max_iff,
        -Prod.mk_zero_zero, -Prod.mk_one_one],
      by norm_num [hcpCenteredAt_def, hcpDistSqCoeff, h1, h2, h3,
        -Prod.mk_zero_zero, -Prod.mk_one_one]⟩
  · exact ⟨(2, 1, 1), by simp [mem_hcpIndices],
      by norm_num [hcpCenteredAt_def, hcpNormSqCoeff, h1, h2, h3, le_max_iff,
        -Prod.mk_zero_zero, -Prod.mk_one_one],
      by norm_num [hcpCenteredAt_def, hcpDistSqCoeff, h1, h2, h3,
        -Prod.mk_zero_zero, -Prod.mk_one_one]⟩
  · exact ⟨(2, 2, 2), by simp [mem_hcpIndices],
      by norm_num [hcpCenteredAt_def, hcpNormSqCoeff, h1, h2, h3, le_max_iff,
        -Prod.mk_zero_zero, -Prod.mk_one_one],
      by norm_num [hcpCenteredAt_def, hcpDistSqCoeff, h1, h2, h3,
        -Prod.mk_zero_zero, -Prod.mk_one_one]⟩
  · exact ⟨(2, 2, 1), by simp [mem_hcpIndices],
      by norm_num [hcpCenteredAt_def, hcpNormSqCoeff, h1, h2, h3, le_max_iff,
        -Prod.mk_zero_zero, -Prod.mk_one_one],
      by norm_num [hcpCenteredAt_def, hcpDistSqCoeff, h1, h2, h3,
        -Prod.mk_zero_zero, -Prod.mk_one_one]⟩
  · exact ⟨(1, 2, 1), by simp [mem_hcpIndices],
      by norm_num [hcpCenteredAt_def, hcpNormSqCoeff, h1, h2, h3, le_max_iff,
        -Prod.mk_zero_zero, -Prod.mk_one_one],
      by norm_num [hcpCenteredAt_def, hcpDistSqCoeff, h1, h2, h3,
        -Prod.mk_zero_zero, -Prod.mk_one_one]⟩
  · exact ⟨(2, 2, 2), by simp [mem_hcpIndices],
      by norm_num [hcpCenteredAt_def, hcpNormSqCoeff, h1, h2, h3, le_max_iff,
        -Prod.mk_zero_zero, -Prod.mk_one_one],
      by norm_num [hcpCenteredAt_def, hcpDistSqCoeff, h1, h2, h3,
        -Prod.mk_zero_zero, -Prod.mk_one_one]⟩
  · exact ⟨(1, 3, 2), by simp [mem_hcpIndices],
      by norm_num [hcpCenteredAt_def, hcpNormSqCoeff, h1, h2, h3, le_max_iff,
        -Prod.mk_zero_zero, -Prod.mk_one_one],
      by norm_num [hcpCenteredAt_def, hcpDistSqCoeff, h1, h2, h3,
        -Prod.mk_zero_zero, -Prod.mk_one_one]⟩
  · exact ⟨(2, 0, 1), by simp [mem_hcpIndices],
      by norm_num [hcpCenteredAt_def, hcpNormSqCoeff, h1, h2, h3, le_max_iff,
        -Prod.mk_zero_zero, -Prod.mk_one_one],
      by norm_num [hcpCenteredAt_def, hcpDistSqCoeff, h1, h2, h3,
        -Prod.mk_zero_zero, -Prod.mk_one_one]⟩
  · exact ⟨(3, 1, 1), by simp [mem_hcpIndices],
      by norm_num [hcpCenteredAt_def, hcpNormSqCoeff, h1, h2, h3, le_max_iff,
        -Prod.mk_zero_zero, -Prod.mk_one_one],
      by norm_num [hcpCenteredAt_def, hcpDistSqCoeff, h1, h2, h3,
        -Prod.mk_zero_zero, -Prod.mk_one_one]⟩
  · exact ⟨(2, 1, 2), by simp [mem_hcpIndices],
      by norm_num [hcpCenteredAt_def, hcpNormSqCoeff, h1, h2, h3, le_max_iff,
        -Prod.mk_zero_zero, -Prod.mk_one_one],
      by norm_num [hcpCenteredAt_def, hcpDistSqCoeff, h1, h2, h3,
        -Prod.mk_zero_zero, -Prod.mk_one_one]⟩
  · exact ⟨(3, 1, 3), by simp [mem_hcpIndices],
      by norm_num [hcpCenteredAt_def, hcpNormSqCoeff, h1, h2, h3, le_max_iff,
        -Prod.mk_zero_zero, -Prod.mk_one_one],
      by norm_num [hcpCenteredAt_def, hcpDistSqCoeff, h1, h2, h3,
        -Prod.mk_zero_zero, -Prod.mk_one_one]⟩
  · exact ⟨(3, 1, 1), by simp [mem_hcpIndices],
      by norm_num [hcpCenteredAt_def, hcpNormSqCoeff, h1, h2, h3, le_max_iff,
        -Prod.mk_zero_zero, -Prod.mk_one_one],
      by norm_num [hcpCenteredAt_def, hcpDistSqCoeff, h1, h2, h3,
        -Prod.mk_zero_zero, -Prod.mk_one_one]⟩
  · exact ⟨(2, 1, 1), by simp [mem_hcpIndices],
      by norm_num [hcpCenteredAt_def, hcpNormSqCoeff, h1, h2, h3, le_max_iff,
        -Prod.mk_zero_zero, -Prod.mk_one_one],
      by norm_num [hcpCenteredAt_def, hcpDistSqCoeff, h1, h2, h3,
        -Prod.mk_zero_zero, -Prod.mk_one_one]⟩
  · exact ⟨(2, 1, 2), by simp [mem_hcpIndices],
      by norm_num [hcpCenteredAt_def, hcpNormSqCoeff, h1, h2, h3, le_max_iff,
        -Prod.mk_zero_zero, -Prod.mk_one_one],
      by norm_num [hcpCenteredAt_def, hcpDistSqCoeff, h1, h2, h3,
        -Prod.mk_zero_zero, -Prod.mk_one_one]⟩
  · exact ⟨(2, 1, 2), by simp [mem_hcpIndices],
      by norm_num [hcpCenteredAt_def, hcpNormSqCoeff, h1, h2, h3, le_max_iff,
        -Prod.mk_zero_zero, -Prod.mk_one_one],
      by norm_num [hcpCenteredAt_def, hcpDistSqCoeff, h1, h2, h3,
        -Prod.mk_zero_zero, -Prod.mk_one_one]⟩
  · exact ⟨(2, 2, 1), by simp [mem_hcpIndices],
      by norm_num [hcpCenteredAt_def, hcpNormSqCoeff, h1, h2, h3, le_max_iff,
        -Prod.mk_zero_zero, -Prod.mk_one_one],
      by norm_num [hcpCenteredAt_def, hcpDistSqCoeff, h1, h2, h3,
        -Prod.mk_zero_zero, -Prod.mk_one_one]⟩
  · exact ⟨(2, 2, 1), by simp [mem_hcpIndices],
      by norm_num [hcpCenteredAt_def, hcpNormSqCoeff, h1, h2, h3, le_max_iff,
        -Prod.mk_zero_zero, -Prod.mk_one_one],
      by norm_num [hcpCenteredAt_def, hcpDistSqCoeff, h1, h2, h3,
        -Prod.mk_zero_zero, -Prod.mk_one_one]⟩
  · exact ⟨(2, 2, 2), by simp [mem_hcpIndices],
      by norm_num [hcpCenteredAt_def, hcpNormSqCoeff, h1, h2, h3, le_max_iff,
        -Prod.mk_zero_zero, -Prod.mk_one_one],
      by norm_num [hcpCenteredAt_def, hcpDistSqCoeff, h1, h2, h3,
        -Prod.mk_zero_zero, -Prod.mk_one_one]⟩
  · exact ⟨(3, 2, 2), by simp [mem_hcpIndices],
      by norm_num [hcpCenteredAt_def, hcpNormSqCoeff, h1, h2, h3, le_max_iff,
        -Prod.mk_zero_zero, -Prod.mk_one_one],
      by norm_num [hcpCenteredAt_def, hcpDistSqCoeff, h1, h2, h3,
        -Prod.mk_zero_zero, -Prod.mk_one_one]⟩
  · exact ⟨(3, 2, 0), by simp [mem_hcpIndices],
      by norm_num [hcpCenteredAt_def, hcpNormSqCoeff, h1, h2, h3, le_max_iff,
        -Prod.mk_zero_zero, -Prod.mk_one_one],
      by norm_num [hcpCenteredAt_def, hcpDistSqCoeff, h1, h2, h3,
        -Prod.mk_zero_zero, -Prod.mk_one_one]⟩
  · exact ⟨(2, 2, 1), by simp [mem_hcpIndices],
      by norm_num [hcpCenteredAt_def, hcpNormSqCoeff, h1, h2, h3, le_max_iff,
        -Prod.mk_zero_zero, -Prod.mk_one_one],
      by norm_num [hcpCenteredAt_def, hcpDistSqCoeff, h1, h2, h3,
        -Prod.mk_zero_zero, -Prod.mk_one_one]⟩
  · exact ⟨(3, 2, 2), by simp [mem_hcpIndices],
      by norm_num [hcpCenteredAt_def, hcpNormSqCoeff, h1, h2, h3, le_max_iff,
        -Prod.mk_zero_zero, -Prod.mk_one_one],
      by norm_num [hcpCenteredAt_def, hcpDistSqCoeff, h1, h2, h3,
        -Prod.mk_zero_zero, -Prod.mk_one_one]⟩
  · exact ⟨(2, 3, 2), by simp [mem_hcpIndices],
      by norm_num [hcpCenteredAt_def, hcpNormSqCoeff, h1, h2, h3, le_max_iff,
        -Prod.mk_zero_zero, -Prod.mk_one_one],
      by norm_num [hcpCenteredAt_def, hcpDistSqCoeff, h1, h2, h3,
        -Prod.mk_zero_zero, -Prod.mk_one_one]⟩

/-- In the `4x4x4` grid every centered norm is at least `5 / 4`. -/
theorem hcp4_min (radius delta_r : ℚ)
    (h1 : hcpMean1 radius delta_r = 7 / 2) (h2 : hcpMean2 radius delta_r = 5 / 3)
    (h3 : hcpMean3 radius delta_r = 3 / 2) :
    ∀ x ∈ hcpIndices 4,
      (5 / 4 : ℚ) ≤ hcpNormSqCoeff (hcpCenteredAt radius delta_r x) := by
  intro x hx
  obtain ⟨i, j, k⟩ := x
  simp only [mem_hcpIndices] at hx
  obtain ⟨hi, hj, hk⟩ := hx
  interval_cases i <;> interval_cases j <;> interval_cases k <;>
    norm_num [hcpCenteredAt_def, hcpNormSqCoeff, h1, h2, h3,
      -Prod.mk_zero_zero, -Prod.mk_one_one]

end MakeBalls
